import Mathlib

/-!
Verification of the PDF-to-Markdown conversion pipeline
(`pdfconv` package: image decoding, markdown synthesis, batch orchestration)
and the `uml` diagram classifier, as a shallow embedding in Lean.

Conventions of the embedding:
* Go byte slices become `List Nat` (each entry a byte value).
* Go `image.RGBA` bitmaps become `GoImage`: a row-major `List RGBA`
  of length `width*height`, zero-initialized to `RGBA (0,0,0,0)` just as
  `image.NewRGBA` zero-initializes its pixel buffer; `img.Set x y c`
  becomes `List.set (y*width + x) c`.
* Go `for` loops become structural recursions on the remaining iteration
  count, threading the mutable state (pixel buffer, data index) explicitly.
* Go `float64` arithmetic in the CMYK conversion is modelled exactly:
  every operation is one correctly-rounded IEEE-754 binary64 step
  (`roundF64`, round-to-nearest, ties to even), and the final
  float-to-uint8 conversion truncates toward zero.
* Fallible Go functions returning `(T, error)` become `Except String T`.
-/

namespace PdfConv

/-- A single RGBA pixel (each channel a byte value). -/
structure RGBA where
  r : Nat
  g : Nat
  b : Nat
  a : Nat
deriving DecidableEq, Repr

/-- The zero value of `image.RGBA` pixels (transparent black). -/
def zeroRGBA : RGBA := ⟨0, 0, 0, 0⟩

/-- The fixed light-gray placeholder fill `color.RGBA{240, 240, 240, 255}`. -/
def gray240 : RGBA := ⟨240, 240, 240, 255⟩

/-- An RGBA bitmap: width, height and a row-major pixel buffer. -/
structure GoImage where
  width : Nat
  height : Nat
  pix : List RGBA
deriving DecidableEq, Repr

/-- Pixel lookup at coordinates `(x, y)` (row-major). -/
def GoImage.pixelAt (img : GoImage) (x y : Nat) : Option RGBA :=
  img.pix[y * img.width + x]?

/-- `createPlaceholderImage`: `imaging.New(width, height, color.RGBA{240, 240, 240, 255})`,
a `width`×`height` bitmap filled with the fixed light-gray color. -/
def createPlaceholderImage (width height : Nat) : GoImage :=
  ⟨width, height, List.replicate (width * height) gray240⟩

/-! ## `decode1BitImage` -/

/-- Inner column loop of `decode1BitImage`
(`for x := 0; x < width; x++`), recursing on the remaining column count
`cols = width - x`.  State: current bit index and pixel buffer.
`.error pix` models the early `return img` taken when
`byteIndex >= len(data)`. -/
def bit1LoopX (data : List Nat) (w y : Nat) :
    Nat → Nat → Nat → List RGBA → Except (List RGBA) (List RGBA × Nat)
  | 0, _, bitIndex, pix => .ok (pix, bitIndex)
  | cols + 1, x, bitIndex, pix =>
    let byteIndex := bitIndex / 8
    if byteIndex ≥ data.length then .error pix
    else
      let bitPosition := 7 - bitIndex % 8
      let bit := (data.getD byteIndex 0 / 2 ^ bitPosition) % 2
      let colorVal := if bit = 1 then 0 else 255
      bit1LoopX data w y cols (x + 1) (bitIndex + 1)
        (pix.set (y * w + x) ⟨colorVal, colorVal, colorVal, 255⟩)

/-- Outer row loop of `decode1BitImage` (`for y := 0; y < height; y++`),
recursing on the remaining row count.  After each row the bit index is
aligned up to the next byte boundary. -/
def bit1LoopY (data : List Nat) (w : Nat) :
    Nat → Nat → Nat → List RGBA → List RGBA
  | 0, _, _, pix => pix
  | rows + 1, y, bitIndex, pix =>
    match bit1LoopX data w y w 0 bitIndex pix with
    | .error pix2 => pix2
    | .ok (pix2, bi2) =>
      let bi3 := if bi2 % 8 ≠ 0 then (bi2 / 8 + 1) * 8 else bi2
      bit1LoopY data w rows (y + 1) bi3 pix2

/-- `decode1BitImage`: decodes a 1-bit black-and-white image, one bit per
pixel MSB-first, rows restarting at byte boundaries. -/
def decode1BitImage (data : List Nat) (width height : Nat) : GoImage :=
  ⟨width, height, bit1LoopY data width height 0 0 (List.replicate (width * height) zeroRGBA)⟩

/-! ## `decodeRawImageData` -/

/-- An exact nonnegative rational as an unnormalised numerator/denominator
pair of naturals (denominator positive).  The float64 model below is kept
in this form so every step is plain `Nat` arithmetic. -/
structure Frac where
  num : Nat
  den : Nat
deriving DecidableEq, Repr

/-- `⌊log2 n⌋` for positive `n` by structural recursion on a fuel bound;
`natLog2 n` is exact for `n < 2^512`. -/
def natLog2Fuel : Nat → Nat → Nat
  | 0, _ => 0
  | fuel + 1, n => if 2 ≤ n then natLog2Fuel fuel (n / 2) + 1 else 0

/-- `⌊log2 n⌋` for positive `n` (0 for 0 and 1). -/
def natLog2 (n : Nat) : Nat := natLog2Fuel 512 n

/-- The binary exponent of the positive rational `n/d`: the largest `e`
with `2^e ≤ n/d`.  With `la = ⌊log2 n⌋` and `lb = ⌊log2 d⌋` the answer is
`la - lb` or `la - lb - 1`; one comparison decides which. -/
def floorLog2Q (n d : Nat) : Int :=
  let e0 : Int := (natLog2 n : Int) - (natLog2 d : Int)
  let le : Bool :=
    if 0 ≤ e0 then decide (d * 2 ^ e0.toNat ≤ n) else decide (d ≤ n * 2 ^ (-e0).toNat)
  if le then e0 else e0 - 1

/-- Round the positive rational `n/d` to the nearest IEEE-754 binary64
value, ties to even: scale into the 53-bit mantissa range `[2^52, 2^53)`
(the scaled value is the fraction `mn/md`), round the mantissa to the
nearest integer (ties to even), and scale back, returning the exact
rounded value `mr * 2^e` as a fraction.  (The magnitudes arising in the
CMYK conversion are all normal, so no subnormal or overflow handling is
needed.) -/
def roundF64Pos (n d : Nat) : Frac :=
  let e : Int := floorLog2Q n d - 52
  let mn : Nat := if 0 ≤ e then n else n * 2 ^ (-e).toNat
  let md : Nat := if 0 ≤ e then d * 2 ^ e.toNat else d
  let fl : Nat := mn / md
  let r : Nat := mn % md
  let mr : Nat :=
    if 2 * r < md then fl
    else if md < 2 * r then fl + 1
    else if fl % 2 = 0 then fl else fl + 1
  if 0 ≤ e then ⟨mr * 2 ^ e.toNat, 1⟩ else ⟨mr, 2 ^ (-e).toNat⟩

/-- One correctly-rounded float64 operation result (round-to-nearest,
ties to even) for the exact nonnegative rational `n/d` of the operation. -/
def roundF64 (n d : Nat) : Frac :=
  if n = 0 then ⟨0, 1⟩ else roundF64Pos n d

/-- Go's `uint8(255 * (1 - float64(v)/255.0) * (1 - float64(K)/255.0))`
for a color channel byte `v` and the black channel byte `K`: the two
divisions, two subtractions and two (left-associated) multiplications are
each one rounded float64 operation (the exact operand values `1 - c`,
`255 * (1-c)`, … are formed as exact fractions and then rounded), and the
conversion to `uint8` truncates toward zero. -/
def cmykChannel (v K : Nat) : Nat :=
  let c := roundF64 v 255
  let k := roundF64 K 255
  let oneMinusC := roundF64 (c.den - c.num) c.den
  let oneMinusK := roundF64 (k.den - k.num) k.den
  let prod1 := roundF64 (255 * oneMinusC.num) oneMinusC.den
  let prod2 := roundF64 (prod1.num * oneMinusK.num) (prod1.den * oneMinusK.den)
  prod2.num / prod2.den

/-- One iteration of the per-pixel `switch colorSpace` in
`decodeRawImageData`: from the current data index, produce the `(r, g, b)`
channel values and the new data index.  The CMYK branch is Go's
`uint8(255 * (1 - cVal) * (1 - kVal))` with `cVal = C/255`, `kVal = K/255`
computed in float64 (`cmykChannel`). -/
def rawPixStep (colorSpace : String) (data : List Nat) (dataIndex : Nat) :
    (Nat × Nat × Nat) × Nat :=
  if colorSpace = "DeviceGray" ∨ colorSpace = "Gray" then
    if dataIndex < data.length then
      let gray := data.getD dataIndex 0
      ((gray, gray, gray), dataIndex + 1)
    else ((0, 0, 0), dataIndex)
  else if colorSpace = "DeviceRGB" ∨ colorSpace = "RGB" then
    if dataIndex + 2 < data.length then
      ((data.getD dataIndex 0, data.getD (dataIndex + 1) 0, data.getD (dataIndex + 2) 0),
        dataIndex + 3)
    else ((0, 0, 0), dataIndex)
  else if colorSpace = "DeviceCMYK" ∨ colorSpace = "CMYK" then
    if dataIndex + 3 < data.length then
      ((cmykChannel (data.getD dataIndex 0) (data.getD (dataIndex + 3) 0),
        cmykChannel (data.getD (dataIndex + 1) 0) (data.getD (dataIndex + 3) 0),
        cmykChannel (data.getD (dataIndex + 2) 0) (data.getD (dataIndex + 3) 0)),
        dataIndex + 4)
    else ((0, 0, 0), dataIndex)
  else
    if dataIndex + 2 < data.length then
      ((data.getD dataIndex 0, data.getD (dataIndex + 1) 0, data.getD (dataIndex + 2) 0),
        dataIndex + 3)
    else if dataIndex < data.length then
      let gray := data.getD dataIndex 0
      ((gray, gray, gray), dataIndex + 1)
    else ((0, 0, 0), dataIndex)

/-- The RGBA value the 8-bit pixel loop writes for data index `di`:
`color.RGBA{R: r, G: g, B: b, A: 255}` from the switch outputs. -/
def rawPixelValue (colorSpace : String) (data : List Nat) (di : Nat) : RGBA :=
  ⟨(rawPixStep colorSpace data di).1.1, (rawPixStep colorSpace data di).1.2.1,
    (rawPixStep colorSpace data di).1.2.2, 255⟩

/-- Inner column loop of the 8-bit pixel conversion
(`for x := 0; x < width && dataIndex < len(data); x++`), recursing on the
remaining column count. -/
def rawLoopX (colorSpace : String) (data : List Nat) (w y : Nat) :
    Nat → Nat → Nat → List RGBA → List RGBA × Nat
  | 0, _, dataIndex, pix => (pix, dataIndex)
  | cols + 1, x, dataIndex, pix =>
    if dataIndex < data.length then
      rawLoopX colorSpace data w y cols (x + 1) (rawPixStep colorSpace data dataIndex).2
        (pix.set (y * w + x) (rawPixelValue colorSpace data dataIndex))
    else (pix, dataIndex)

/-- Outer row loop of the 8-bit pixel conversion
(`for y := 0; y < height && dataIndex < len(data); y++`). -/
def rawLoopY (colorSpace : String) (data : List Nat) (w : Nat) :
    Nat → Nat → Nat → List RGBA → List RGBA
  | 0, _, _, pix => pix
  | rows + 1, y, dataIndex, pix =>
    if dataIndex < data.length then
      let p := rawLoopX colorSpace data w y w 0 dataIndex pix
      rawLoopY colorSpace data w rows (y + 1) p.2 p.1
    else pix

/-- The `switch colorSpace` computing `bytesPerPixel` in `decodeRawImageData`
(ICCBased / CalRGB and every unrecognized space fall to 3). -/
def bytesPerPixelOf (colorSpace : String) : Nat :=
  if colorSpace = "DeviceRGB" ∨ colorSpace = "RGB" then 3
  else if colorSpace = "DeviceGray" ∨ colorSpace = "Gray" then 1
  else if colorSpace = "DeviceCMYK" ∨ colorSpace = "CMYK" then 4
  else 3

/-- `decodeRawImageData`: validates dimensions, dispatches on bits per
component, checks the available data size and runs the pixel-conversion
loops.  Dimension and bits-per-component inputs are Go `int`s, hence `Int`. -/
def decodeRawImageData (data : List Nat) (width height : Int) (colorSpace : String)
    (bitsPerComponent : Int) : Except String GoImage :=
  if width ≤ 0 ∨ height ≤ 0 then .error "invalid image dimensions"
  else if width * height > 4000000 then
    .ok (createPlaceholderImage width.toNat height.toNat)
  else
    let colorSpace := if colorSpace = "" then "DeviceRGB" else colorSpace
    let w := width.toNat
    let h := height.toNat
    let bytesPerPixel := bytesPerPixelOf colorSpace
    if bitsPerComponent ≠ 8 ∧ bitsPerComponent ≠ 1 then
      .ok (createPlaceholderImage w h)
    else if bitsPerComponent = 1 then
      .ok (decode1BitImage data w h)
    else
      let expectedDataSize := w * h * bytesPerPixel
      if data.length < expectedDataSize ∧ data.length < w * h then
        .ok (createPlaceholderImage w h)
      else
        .ok ⟨w, h, rawLoopY colorSpace data w h 0 0 (List.replicate (w * h) zeroRGBA)⟩

/-- Every pixel of a placeholder bitmap is the fixed light-gray color. -/
theorem createPlaceholderImage_pix_mem (width height : Nat) :
    ∀ p ∈ (createPlaceholderImage width height).pix, p = gray240 := by
  intro p hp
  exact List.eq_of_mem_replicate hp

end PdfConv

namespace PdfConv

/-- **C2.** For every raw image decode input whose declared width and height
are each positive and at most 10000 but whose product exceeds 4,000,000,
the decoder returns, without error, a placeholder bitmap of exactly the
declared dimensions filled with the fixed light-gray color
RGBA(240,240,240,255). -/
theorem decodeRawImageData_oversized_placeholder
    (data : List Nat) (width height : Int) (colorSpace : String)
    (bitsPerComponent : Int)
    (hw : 0 < width) (hwle : width ≤ 10000)
    (hh : 0 < height) (hhle : height ≤ 10000)
    (hp : width * height > 4000000) :
    decodeRawImageData data width height colorSpace bitsPerComponent =
      .ok (createPlaceholderImage width.toNat height.toNat) ∧
    (createPlaceholderImage width.toNat height.toNat).width = width.toNat ∧
    (createPlaceholderImage width.toNat height.toNat).height = height.toNat ∧
    ∀ p ∈ (createPlaceholderImage width.toNat height.toNat).pix, p = gray240 := by
  refine ⟨?_, rfl, rfl, createPlaceholderImage_pix_mem _ _⟩
  unfold decodeRawImageData
  rw [if_neg (by omega), if_pos hp]

/-- Witness for C2 at declared dimensions 3000×3000 (9,000,000 pixels). -/
theorem decodeRawImageData_oversized_placeholder_witness :
    decodeRawImageData [] 3000 3000 "DeviceRGB" 8 =
      .ok (createPlaceholderImage 3000 3000) ∧
    (createPlaceholderImage 3000 3000).width = 3000 ∧
    (createPlaceholderImage 3000 3000).height = 3000 ∧
    ∀ p ∈ (createPlaceholderImage 3000 3000).pix, p = gray240 := by
  have h := decodeRawImageData_oversized_placeholder [] 3000 3000 "DeviceRGB" 8
    (by norm_num) (by norm_num) (by norm_num) (by norm_num) (by norm_num)
  simpa using h

/-- **C5.** For every raw image decode input with positive declared
dimensions whose bits-per-component value is neither 8 nor 1 (including
zero and negative values), the decoder returns a placeholder bitmap instead
of attempting pixel decoding, and raises no error. -/
theorem decodeRawImageData_badBits_placeholder
    (data : List Nat) (width height : Int) (colorSpace : String)
    (bitsPerComponent : Int)
    (hw : 0 < width) (hh : 0 < height)
    (h8 : bitsPerComponent ≠ 8) (h1 : bitsPerComponent ≠ 1) :
    decodeRawImageData data width height colorSpace bitsPerComponent =
      .ok (createPlaceholderImage width.toNat height.toNat) ∧
    ∀ p ∈ (createPlaceholderImage width.toNat height.toNat).pix, p = gray240 := by
  refine ⟨?_, createPlaceholderImage_pix_mem _ _⟩
  unfold decodeRawImageData
  rw [if_neg (by omega)]
  by_cases hbig : width * height > 4000000
  · rw [if_pos hbig]
  · rw [if_neg hbig, if_pos ⟨h8, h1⟩]

/-- Witness for C5 at bits-per-component 0 (a zero value, as the claim
highlights), on a 2×2 grayscale input with ample data. -/
theorem decodeRawImageData_badBits_placeholder_witness :
    decodeRawImageData [9, 9, 9, 9] 2 2 "DeviceGray" 0 =
      .ok (createPlaceholderImage 2 2) ∧
    ∀ p ∈ (createPlaceholderImage 2 2).pix, p = gray240 :=
  decodeRawImageData_badBits_placeholder [9, 9, 9, 9] 2 2 "DeviceGray" 0
    (by norm_num) (by norm_num) (by decide) (by decide)

set_option maxRecDepth 100000 in
/-- **C6 counterexample.** For the fully-supplied CMYK pixel
(C, M, Y, K) = (0, 0, 0, 43) the claimed formula gives exactly
R = 255·(1−0/255)·(1−43/255) = 212, but the decoder — computing in
float64, where the product rounds to 211.99999999999997 — truncates to
211. -/
theorem decodeRawImageData_cmyk_float_counterexample :
    decodeRawImageData [0, 0, 0, 43] 1 1 "DeviceCMYK" 8
      = .ok ⟨1, 1, [⟨211, 211, 211, 255⟩]⟩ ∧
    (255 : ℚ) * (1 - (0 : ℚ) / 255) * (1 - (43 : ℚ) / 255) = 212 ∧
    (211 : ℚ) ≠ 212 :=
  ⟨by rfl, by norm_num, by norm_num⟩

set_option maxRecDepth 100000 in
/-- **C6 (amended).** For every fully-supplied 8-bit CMYK pixel with
channel bytes C, M, Y, K, the decoded pixel is the float64 evaluation of
R = 255·(1−C/255)·(1−K/255), G = 255·(1−M/255)·(1−K/255),
B = 255·(1−Y/255)·(1−K/255) — each operation correctly rounded and the
result truncated to a byte (`cmykChannel`), which can fall one below the
exact real value — with alpha 255; in particular channel bytes (0,0,0,0)
decode to RGB (255,255,255) and (0,0,0,255) decode to RGB (0,0,0), where
the float computation is exact. -/
theorem decodeRawImageData_cmyk_float_spec
    (C M Y K : Nat) (hC : C ≤ 255) (hM : M ≤ 255) (hY : Y ≤ 255) (hK : K ≤ 255) :
    decodeRawImageData [C, M, Y, K] 1 1 "DeviceCMYK" 8 =
      .ok ⟨1, 1, [⟨cmykChannel C K, cmykChannel M K, cmykChannel Y K, 255⟩]⟩ ∧
    decodeRawImageData [0, 0, 0, 0] 1 1 "DeviceCMYK" 8 =
      .ok ⟨1, 1, [⟨255, 255, 255, 255⟩]⟩ ∧
    decodeRawImageData [0, 0, 0, 255] 1 1 "DeviceCMYK" 8 =
      .ok ⟨1, 1, [⟨0, 0, 0, 255⟩]⟩ := by
  refine ⟨?_, ?_, ?_⟩
  · simp [decodeRawImageData, rawLoopY, rawLoopX, rawPixelValue, rawPixStep,
      bytesPerPixelOf, List.getD]
  · rfl
  · rfl

/-! ## Characterization of the 1-bit decode loops (for C3) -/

/-- Black pixel written by the 1-bit decoder for bit value 1. -/
def blackPix : RGBA := ⟨0, 0, 0, 255⟩

/-- White pixel written by the 1-bit decoder for bit value 0. -/
def whitePix : RGBA := ⟨255, 255, 255, 255⟩

/-- The pixel the 1-bit decoder writes for global bit index `bi`: the bit is
taken from byte `bi / 8` at position `7 - bi % 8` (MSB-first), value 1
mapping to black and 0 to white. -/
def bit1Pixel (data : List Nat) (bi : Nat) : RGBA :=
  if (data.getD (bi / 8) 0 / 2 ^ (7 - bi % 8)) % 2 = 1 then blackPix else whitePix

/-- Pixel buffer of either outcome of the inner 1-bit loop. -/
def outBuf : Except (List RGBA) (List RGBA × Nat) → List RGBA
  | .error pix => pix
  | .ok (pix, _) => pix

/-- The RGBA value written by the 1-bit loop body equals `bit1Pixel`. -/
theorem bit1Write_eq (data : List Nat) (bi : Nat) :
    (⟨if (data.getD (bi / 8) 0 / 2 ^ (7 - bi % 8)) % 2 = 1 then 0 else 255,
      if (data.getD (bi / 8) 0 / 2 ^ (7 - bi % 8)) % 2 = 1 then 0 else 255,
      if (data.getD (bi / 8) 0 / 2 ^ (7 - bi % 8)) % 2 = 1 then 0 else 255, 255⟩ : RGBA)
      = bit1Pixel data bi := by
  unfold bit1Pixel blackPix whitePix
  split <;> rfl

/-- The inner 1-bit loop preserves the pixel-buffer length. -/
theorem bit1LoopX_length (data : List Nat) (w y : Nat) :
    ∀ cols x bitIndex pix,
      (outBuf (bit1LoopX data w y cols x bitIndex pix)).length = pix.length := by
  intro cols
  induction cols with
  | zero => intro x bitIndex pix; rfl
  | succ cols ih =>
    intro x bitIndex pix
    simp only [bit1LoopX]
    split
    · rfl
    · rw [ih]; simp

/-- The inner 1-bit loop does not touch pixels outside `[y*w+x, y*w+x+cols)`. -/
theorem bit1LoopX_frame (data : List Nat) (w y : Nat) :
    ∀ cols x bitIndex pix j, j < y * w + x ∨ y * w + x + cols ≤ j →
      (outBuf (bit1LoopX data w y cols x bitIndex pix))[j]? = pix[j]? := by
  intro cols
  induction cols with
  | zero => intro x bitIndex pix j _; rfl
  | succ cols ih =>
    intro x bitIndex pix j hj
    simp only [bit1LoopX]
    split
    · rfl
    · rw [ih (x + 1) (bitIndex + 1) _ j (by omega)]
      exact List.getElem?_set_ne (by omega)

/-- Pixels of the row whose byte exists were written with `bit1Pixel`. -/
theorem bit1LoopX_processed (data : List Nat) (w y : Nat) :
    ∀ cols x bitIndex pix i, i < cols → (bitIndex + i) / 8 < data.length →
      y * w + x + cols ≤ pix.length →
      (outBuf (bit1LoopX data w y cols x bitIndex pix))[y * w + x + i]? =
        some (bit1Pixel data (bitIndex + i)) := by
  intro cols
  induction cols with
  | zero => intro x bitIndex pix i hi; omega
  | succ cols ih =>
    intro x bitIndex pix i hi hbyte hlen
    simp only [bit1LoopX]
    split
    · omega
    · cases i with
      | zero =>
        simp only [Nat.add_zero]
        rw [bit1LoopX_frame data w y cols (x + 1) (bitIndex + 1) _ (y * w + x)
          (Or.inl (by omega))]
        rw [bit1Write_eq]
        simpa using List.getElem?_set_eq_of_lt (bit1Pixel data bitIndex) (by omega)
      | succ i =>
        have h1 : y * w + x + (i + 1) = y * w + (x + 1) + i := by omega
        rw [h1]
        rw [ih (x + 1) (bitIndex + 1) _ i (by omega)
          (by have : bitIndex + 1 + i = bitIndex + (i + 1) := by omega
              rw [this]; exact hbyte)
          (by rw [List.length_set]; omega)]
        have h2 : bitIndex + 1 + i = bitIndex + (i + 1) := by omega
        rw [h2]

/-- Pixels of the row whose byte is past the end of the data are untouched. -/
theorem bit1LoopX_unreached (data : List Nat) (w y : Nat) :
    ∀ cols x bitIndex pix i, i < cols → data.length ≤ (bitIndex + i) / 8 →
      (outBuf (bit1LoopX data w y cols x bitIndex pix))[y * w + x + i]? =
        pix[y * w + x + i]? := by
  intro cols
  induction cols with
  | zero => intro x bitIndex pix i hi; omega
  | succ cols ih =>
    intro x bitIndex pix i hi hbyte
    simp only [bit1LoopX]
    split
    · rfl
    · cases i with
      | zero => omega
      | succ i =>
        have h1 : y * w + x + (i + 1) = y * w + (x + 1) + i := by omega
        rw [h1]
        rw [ih (x + 1) (bitIndex + 1) _ i (by omega)
          (by have : bitIndex + 1 + i = bitIndex + (i + 1) := by omega
              rw [this]; exact hbyte)]
        rw [← h1]
        exact List.getElem?_set_ne (by omega)

/-- When the inner 1-bit loop finishes normally, the final bit index is the
starting one plus the processed column count. -/
theorem bit1LoopX_ok_bitIndex (data : List Nat) (w y : Nat) :
    ∀ cols x bitIndex pix pixF biF,
      bit1LoopX data w y cols x bitIndex pix = .ok (pixF, biF) →
      biF = bitIndex + cols := by
  intro cols
  induction cols with
  | zero =>
    intro x bitIndex pix pixF biF h
    simp only [bit1LoopX] at h
    cases h; rfl
  | succ cols ih =>
    intro x bitIndex pix pixF biF h
    simp only [bit1LoopX] at h
    split at h
    · cases h
    · have := ih _ _ _ _ _ h
      omega

/-- When the inner 1-bit loop finishes normally, every bit of the row was
within the data. -/
theorem bit1LoopX_ok_all (data : List Nat) (w y : Nat) :
    ∀ cols x bitIndex pix pixF biF,
      bit1LoopX data w y cols x bitIndex pix = .ok (pixF, biF) →
      ∀ i, i < cols → (bitIndex + i) / 8 < data.length := by
  intro cols
  induction cols with
  | zero => intro x bitIndex pix pixF biF _ i hi; omega
  | succ cols ih =>
    intro x bitIndex pix pixF biF h i hi
    simp only [bit1LoopX] at h
    split at h
    · cases h
    · rename_i hguard
      cases i with
      | zero => omega
      | succ i =>
        have := ih _ _ _ _ _ h i (by omega)
        omega

/-- When the inner 1-bit loop early-returns, some bit of the row was past
the end of the data. -/
theorem bit1LoopX_err_exists (data : List Nat) (w y : Nat) :
    ∀ cols x bitIndex pix pixF,
      bit1LoopX data w y cols x bitIndex pix = .error pixF →
      ∃ i, i < cols ∧ data.length ≤ (bitIndex + i) / 8 := by
  intro cols
  induction cols with
  | zero => intro x bitIndex pix pixF h; simp only [bit1LoopX] at h; cases h
  | succ cols ih =>
    intro x bitIndex pix pixF h
    simp only [bit1LoopX] at h
    split at h
    · rename_i hguard
      exact ⟨0, by omega, by omega⟩
    · obtain ⟨i, hi, hge⟩ := ih _ _ _ _ h
      exact ⟨i + 1, by omega, by omega⟩

/-- The row loop of the 1-bit decoder does not touch pixels of rows before
the current one. -/
theorem bit1LoopY_frame (data : List Nat) (w : Nat) :
    ∀ rows y0 bitIndex pix j, j < y0 * w →
      (bit1LoopY data w rows y0 bitIndex pix)[j]? = pix[j]? := by
  intro rows
  induction rows with
  | zero => intro y0 bitIndex pix j _; rfl
  | succ rows ih =>
    intro y0 bitIndex pix j hj
    simp only [bit1LoopY]
    split
    · rename_i pix2 heq
      have hf := bit1LoopX_frame data w y0 w 0 bitIndex pix j (Or.inl (by omega))
      rw [heq] at hf
      exact hf
    · rename_i pix2 bi2 heq
      have hstep : y0 * w ≤ (y0 + 1) * w := by
        have := Nat.mul_le_mul_right w (Nat.le_succ y0)
        simpa using this
      rw [ih (y0 + 1) _ pix2 j (by omega)]
      have hf := bit1LoopX_frame data w y0 w 0 bitIndex pix j (Or.inl (by omega))
      rw [heq] at hf
      exact hf

/-- The row loop of the 1-bit decoder preserves the pixel-buffer length. -/
theorem bit1LoopY_length (data : List Nat) (w : Nat) :
    ∀ rows y0 bitIndex pix,
      (bit1LoopY data w rows y0 bitIndex pix).length = pix.length := by
  intro rows
  induction rows with
  | zero => intro y0 bitIndex pix; rfl
  | succ rows ih =>
    intro y0 bitIndex pix
    simp only [bit1LoopY]
    split
    · rename_i pix2 heq
      have hl := bit1LoopX_length data w y0 w 0 bitIndex pix
      rw [heq] at hl
      exact hl
    · rename_i pix2 bi2 heq
      rw [ih]
      have hl := bit1LoopX_length data w y0 w 0 bitIndex pix
      rw [heq] at hl
      exact hl

/-- Full characterization of the 1-bit row loop: starting at a byte-aligned
bit index, the pixel at `(x, yt)` is the MSB-first bit pixel at bit index
`bitIndex + (yt - y0) * 8 * ceil(w/8) + x` when that bit's byte exists, and
is untouched otherwise. -/
theorem bit1LoopY_get (data : List Nat) (w : Nat) (hw : 0 < w) :
    ∀ rows y0 bitIndex pix yt x, x < w → y0 ≤ yt → yt < y0 + rows →
      (y0 + rows) * w ≤ pix.length → bitIndex % 8 = 0 →
      (bit1LoopY data w rows y0 bitIndex pix)[yt * w + x]? =
        (if (bitIndex + (yt - y0) * (8 * ((w + 7) / 8)) + x) / 8 < data.length
         then some (bit1Pixel data (bitIndex + (yt - y0) * (8 * ((w + 7) / 8)) + x))
         else pix[yt * w + x]?) := by
  intro rows
  induction rows with
  | zero => intro y0 bitIndex pix yt x _ _ h; omega
  | succ rows ih =>
    intro y0 bitIndex pix yt x hx hyt1 hyt2 hlen halgn
    have hrowlen : y0 * w + 0 + w ≤ pix.length := by
      have h1 : (y0 + 1) * w ≤ (y0 + (rows + 1)) * w :=
        Nat.mul_le_mul_right w (by omega)
      have h2 : (y0 + 1) * w = y0 * w + w := by ring
      omega
    simp only [bit1LoopY]
    split
    · -- early return inside row y0
      rename_i pix2 heq
      obtain ⟨i0, hi0, hge⟩ := bit1LoopX_err_exists data w y0 w 0 bitIndex pix pix2 heq
      by_cases hyt : yt = y0
      · subst hyt
        simp only [Nat.sub_self, Nat.zero_mul, Nat.add_zero]
        by_cases hbit : (bitIndex + x) / 8 < data.length
        · rw [if_pos hbit]
          have hp := bit1LoopX_processed data w yt w 0 bitIndex pix x hx
            (by simpa using hbit) hrowlen
          rw [heq] at hp
          simpa using hp
        · rw [if_neg hbit]
          have hp := bit1LoopX_unreached data w yt w 0 bitIndex pix x hx
            (by simpa using Nat.le_of_not_lt hbit)
          rw [heq] at hp
          simpa using hp
      · -- later rows are never reached
        have hys : y0 + 1 ≤ yt := by omega
        have hcond : ¬ (bitIndex + (yt - y0) * (8 * ((w + 7) / 8)) + x) / 8 < data.length := by
          have hge1 : 1 ≤ yt - y0 := by omega
          have h8w : w ≤ 8 * ((w + 7) / 8) := by omega
          have hmul : 8 * ((w + 7) / 8) ≤ (yt - y0) * (8 * ((w + 7) / 8)) :=
            Nat.le_mul_of_pos_left _ (by omega)
          generalize ht : (yt - y0) * (8 * ((w + 7) / 8)) = t at hmul
          generalize hq : (w + 7) / 8 = q at hmul h8w
          omega
        rw [if_neg hcond]
        have hf := bit1LoopX_frame data w y0 w 0 bitIndex pix (yt * w + x)
          (Or.inr (by
            have : (y0 + 1) * w ≤ yt * w := Nat.mul_le_mul_right w hys
            have h2 : (y0 + 1) * w = y0 * w + w := by ring
            omega))
        rw [heq] at hf
        exact hf
    · -- row y0 fully processed
      rename_i pix2 bi2 heq
      have hbi2 : bi2 = bitIndex + w := bit1LoopX_ok_bitIndex data w y0 w 0 bitIndex pix pix2 bi2 heq
      have hall := bit1LoopX_ok_all data w y0 w 0 bitIndex pix pix2 bi2 heq
      have hlen2 : pix2.length = pix.length := by
        have hl := bit1LoopX_length data w y0 w 0 bitIndex pix
        rw [heq] at hl
        exact hl
      have halign : (if bi2 % 8 ≠ 0 then (bi2 / 8 + 1) * 8 else bi2)
          = bitIndex + 8 * ((w + 7) / 8) := by
        subst hbi2
        split <;> omega
      rw [halign]
      by_cases hyt : yt = y0
      · subst hyt
        simp only [Nat.sub_self, Nat.zero_mul, Nat.add_zero]
        have hbit : (bitIndex + x) / 8 < data.length := by
          have := hall x hx
          omega
        rw [if_pos hbit]
        rw [bit1LoopY_frame data w rows (yt + 1) _ pix2 (yt * w + x)
          (by have h2 : (yt + 1) * w = yt * w + w := by ring
              omega)]
        have hp := bit1LoopX_processed data w yt w 0 bitIndex pix x hx
          (by simpa using hbit) hrowlen
        rw [heq] at hp
        simpa using hp
      · have hys : y0 + 1 ≤ yt := by omega
        rw [ih (y0 + 1) (bitIndex + 8 * ((w + 7) / 8)) pix2 yt x hx (by omega)
          (by omega)
          (by rw [hlen2]
              have : (y0 + 1 + rows) * w = (y0 + (rows + 1)) * w := by ring
              omega)
          (by omega)]
        obtain ⟨m, hm⟩ : ∃ m, yt - y0 = m + 1 := ⟨yt - y0 - 1, by omega⟩
        have hm2 : yt - (y0 + 1) = m := by omega
        have hshift : bitIndex + 8 * ((w + 7) / 8) + (yt - (y0 + 1)) * (8 * ((w + 7) / 8)) + x
            = bitIndex + (yt - y0) * (8 * ((w + 7) / 8)) + x := by
          rw [hm2, hm]; ring
        rw [hshift]
        by_cases hbit : (bitIndex + (yt - y0) * (8 * ((w + 7) / 8)) + x) / 8 < data.length
        · rw [if_pos hbit, if_pos hbit]
        · rw [if_neg hbit, if_neg hbit]
          have hf := bit1LoopX_frame data w y0 w 0 bitIndex pix (yt * w + x)
            (Or.inr (by
              have : (y0 + 1) * w ≤ yt * w := Nat.mul_le_mul_right w hys
              have h2 : (y0 + 1) * w = y0 * w + w := by ring
              omega))
          rw [heq] at hf
          exact hf

/-- **C3.** For every byte buffer and every positive width and height,
1-bit decoding consumes bits MSB-first, one bit per horizontal pixel
(bit value 1 ↦ black (0,0,0), bit value 0 ↦ white (255,255,255)), and
restarts each image row at a byte boundary — the pixel at `(x, y)` reads
the bit at index `y * 8*ceil(w/8) + x`, so unconsumed bits at the end of a
row are discarded; in particular an 8-pixel-wide single row encoded as the
single byte 0xF0 yields pixels 0–3 black and pixels 4–7 white. -/
theorem decode1BitImage_spec (data : List Nat) (w h x y : Nat)
    (hw : 0 < w) (hh : 0 < h) (hx : x < w) (hy : y < h) :
    (decode1BitImage data w h).pixelAt x y =
      some (if (y * (8 * ((w + 7) / 8)) + x) / 8 < data.length
        then bit1Pixel data (y * (8 * ((w + 7) / 8)) + x)
        else zeroRGBA) ∧
    (decode1BitImage [0xF0] 8 1).pix =
      [blackPix, blackPix, blackPix, blackPix,
       whitePix, whitePix, whitePix, whitePix] := by
  constructor
  · have hmain := bit1LoopY_get data w hw h 0 0 (List.replicate (w * h) zeroRGBA)
      y x hx (Nat.zero_le _) (by omega)
      (by simp [Nat.mul_comm]) (by omega)
    show (bit1LoopY data w h 0 0 (List.replicate (w * h) zeroRGBA))[y * w + x]? = _
    rw [hmain]
    simp only [Nat.zero_add, Nat.sub_zero]
    have hidx : y * w + x < w * h := by
      have h1 : (y + 1) * w ≤ h * w := Nat.mul_le_mul_right w (by omega)
      have h2 : (y + 1) * w = y * w + w := by ring
      have h3 : h * w = w * h := Nat.mul_comm h w
      omega
    split
    · rfl
    · simp [List.getElem?_replicate, hidx]
  · rfl

/-- Witness for C3: the 8×1 row `0xF0`, pixel (2, 0) — the general formula
instantiated at a concrete in-range coordinate. -/
theorem decode1BitImage_spec_witness :
    (decode1BitImage [0xF0] 8 1).pixelAt 2 0 =
      some (if (0 * (8 * ((8 + 7) / 8)) + 2) / 8 < ([0xF0] : List Nat).length
        then bit1Pixel [0xF0] (0 * (8 * ((8 + 7) / 8)) + 2)
        else zeroRGBA) ∧
    (decode1BitImage [0xF0] 8 1).pix =
      [blackPix, blackPix, blackPix, blackPix,
       whitePix, whitePix, whitePix, whitePix] :=
  decode1BitImage_spec [0xF0] 8 1 2 0 (by norm_num) (by norm_num)
    (by norm_num) (by norm_num)

/-! ## Characterization of the 8-bit decode loops (for C4) -/

/-- Every color space maps to a positive byte-per-pixel count. -/
theorem bytesPerPixelOf_pos (colorSpace : String) : 0 < bytesPerPixelOf colorSpace := by
  unfold bytesPerPixelOf
  split_ifs <;> norm_num

/-- When a full pixel's bytes are available, one step of the pixel loop
advances the data index by exactly `bytesPerPixelOf colorSpace`. -/
theorem rawPixStep_snd (colorSpace : String) (data : List Nat) (di : Nat)
    (h : di + bytesPerPixelOf colorSpace ≤ data.length) :
    (rawPixStep colorSpace data di).2 = di + bytesPerPixelOf colorSpace := by
  by_cases hG : colorSpace = "DeviceGray" ∨ colorSpace = "Gray"
  · have hbpp : bytesPerPixelOf colorSpace = 1 := by
      rcases hG with h1 | h1 <;> subst h1 <;> simp [bytesPerPixelOf]
    rw [hbpp] at h
    simp only [rawPixStep, if_pos hG]
    rw [if_pos (by omega), hbpp]
  · by_cases hR : colorSpace = "DeviceRGB" ∨ colorSpace = "RGB"
    · have hbpp : bytesPerPixelOf colorSpace = 3 := by
        rcases hR with h1 | h1 <;> subst h1 <;> simp [bytesPerPixelOf]
      rw [hbpp] at h
      simp only [rawPixStep, if_neg hG, if_pos hR]
      rw [if_pos (by omega), hbpp]
    · by_cases hC : colorSpace = "DeviceCMYK" ∨ colorSpace = "CMYK"
      · have hbpp : bytesPerPixelOf colorSpace = 4 := by
          rcases hC with h1 | h1 <;> subst h1 <;> simp [bytesPerPixelOf]
        rw [hbpp] at h
        simp only [rawPixStep, if_neg hG, if_neg hR, if_pos hC]
        rw [if_pos (by omega), hbpp]
      · have hbpp : bytesPerPixelOf colorSpace = 3 := by
          simp [bytesPerPixelOf, if_neg hG, if_neg hR, if_neg hC]
        rw [hbpp] at h
        simp only [rawPixStep, if_neg hG, if_neg hR, if_neg hC]
        rw [if_pos (by omega), hbpp]

/-- The inner 8-bit loop preserves the pixel-buffer length. -/
theorem rawLoopX_length (colorSpace : String) (data : List Nat) (w y : Nat) :
    ∀ cols x di pix,
      ((rawLoopX colorSpace data w y cols x di pix).1).length = pix.length := by
  intro cols
  induction cols with
  | zero => intro x di pix; rfl
  | succ cols ih =>
    intro x di pix
    simp only [rawLoopX]
    split
    · rw [ih]; simp
    · rfl

/-- The inner 8-bit loop does not touch pixels outside `[y*w+x, y*w+x+cols)`. -/
theorem rawLoopX_frame (colorSpace : String) (data : List Nat) (w y : Nat) :
    ∀ cols x di pix j, j < y * w + x ∨ y * w + x + cols ≤ j →
      ((rawLoopX colorSpace data w y cols x di pix).1)[j]? = pix[j]? := by
  intro cols
  induction cols with
  | zero => intro x di pix j _; rfl
  | succ cols ih =>
    intro x di pix j hj
    simp only [rawLoopX]
    split
    · rw [ih (x + 1) _ _ j (by omega)]
      exact List.getElem?_set_ne (by omega)
    · rfl

/-- Main characterization of the inner 8-bit loop when the data runs out at
a pixel boundary: with `c` whole pixels of data left, the loop processes
`min cols c` pixels, advancing the data index accordingly, writing the
decoded channel values, and leaving every other pixel untouched. -/
theorem rawLoopX_main (colorSpace : String) (data : List Nat) (w y : Nat) :
    ∀ cols x di c pix, data.length = di + c * bytesPerPixelOf colorSpace →
      y * w + x + cols ≤ pix.length →
      (rawLoopX colorSpace data w y cols x di pix).2
          = di + min cols c * bytesPerPixelOf colorSpace ∧
      (∀ i, i < min cols c →
        ((rawLoopX colorSpace data w y cols x di pix).1)[y * w + x + i]? =
          some (rawPixelValue colorSpace data (di + i * bytesPerPixelOf colorSpace))) ∧
      (∀ j, y * w + x + min cols c ≤ j →
        ((rawLoopX colorSpace data w y cols x di pix).1)[j]? = pix[j]?) := by
  have hbpp : 0 < bytesPerPixelOf colorSpace := bytesPerPixelOf_pos colorSpace
  intro cols
  induction cols with
  | zero =>
    intro x di c pix hc hlen
    refine ⟨by simp [rawLoopX], by omega, fun j hj => rfl⟩
  | succ cols ih =>
    intro x di c pix hc hlen
    cases c with
    | zero =>
      have hdi : data.length = di := by simpa using hc
      simp only [rawLoopX]
      rw [if_neg (by omega)]
      refine ⟨by simp, by omega, fun j hj => rfl⟩
    | succ c =>
      have hexp : (c + 1) * bytesPerPixelOf colorSpace
          = c * bytesPerPixelOf colorSpace + bytesPerPixelOf colorSpace := by ring
      rw [hexp] at hc
      have hguard : di < data.length := by omega
      have hfull : di + bytesPerPixelOf colorSpace ≤ data.length := by omega
      have hsnd := rawPixStep_snd colorSpace data di hfull
      simp only [rawLoopX]
      rw [if_pos hguard]
      rw [hsnd]
      have hc2 : data.length = (di + bytesPerPixelOf colorSpace)
          + c * bytesPerPixelOf colorSpace := by omega
      have hlen2 : y * w + (x + 1) + cols
          ≤ (pix.set (y * w + x) (rawPixelValue colorSpace data di)).length := by
        rw [List.length_set]; omega
      obtain ⟨ihd, ihset, ihframe⟩ := ih (x + 1) (di + bytesPerPixelOf colorSpace) c _ hc2 hlen2
      have hmin : min (cols + 1) (c + 1) = min cols c + 1 := by omega
      refine ⟨?_, ?_, ?_⟩
      · rw [ihd, hmin, Nat.succ_mul]
        omega
      · intro i hi
        cases i with
        | zero =>
          simp only [Nat.add_zero, Nat.zero_mul]
          rw [rawLoopX_frame colorSpace data w y cols (x + 1)
            (di + bytesPerPixelOf colorSpace) _ (y * w + x) (Or.inl (by omega))]
          simpa using List.getElem?_set_eq_of_lt (rawPixelValue colorSpace data di) (by omega)
        | succ i =>
          have h1 : y * w + x + (i + 1) = y * w + (x + 1) + i := by omega
          rw [h1, ihset i (by omega)]
          have h2 : di + bytesPerPixelOf colorSpace + i * bytesPerPixelOf colorSpace
              = di + (i + 1) * bytesPerPixelOf colorSpace := by ring
          rw [h2]
      · intro j hj
        rw [ihframe j (by omega)]
        exact List.getElem?_set_ne (by omega)

/-- The row loop of the 8-bit decoder does not touch pixels of rows before
the current one. -/
theorem rawLoopY_frame (colorSpace : String) (data : List Nat) (w : Nat) :
    ∀ rows y0 di pix j, j < y0 * w →
      (rawLoopY colorSpace data w rows y0 di pix)[j]? = pix[j]? := by
  intro rows
  induction rows with
  | zero => intro y0 di pix j _; rfl
  | succ rows ih =>
    intro y0 di pix j hj
    simp only [rawLoopY]
    split
    · have hstep : y0 * w ≤ (y0 + 1) * w := by
        have := Nat.mul_le_mul_right w (Nat.le_succ y0)
        simpa using this
      rw [ih (y0 + 1) _ _ j (by omega)]
      exact rawLoopX_frame colorSpace data w y0 w 0 di pix j (Or.inl (by omega))
    · rfl

/-- The row loop of the 8-bit decoder preserves the pixel-buffer length. -/
theorem rawLoopY_length (colorSpace : String) (data : List Nat) (w : Nat) :
    ∀ rows y0 di pix,
      (rawLoopY colorSpace data w rows y0 di pix).length = pix.length := by
  intro rows
  induction rows with
  | zero => intro y0 di pix; rfl
  | succ rows ih =>
    intro y0 di pix
    simp only [rawLoopY]
    split
    · rw [ih, rawLoopX_length]
    · rfl

/-- Full characterization of the 8-bit row loop when the data runs out at a
pixel boundary (`c` whole pixels of data remain): pixel `(xj, yt)` — the
`(yt-y0)*w + xj`-th pixel processed — receives its decoded value iff it is
among the first `c`, and is untouched otherwise. -/
theorem rawLoopY_main (colorSpace : String) (data : List Nat) (w : Nat) (hw : 0 < w) :
    ∀ rows y0 di c pix yt xj, data.length = di + c * bytesPerPixelOf colorSpace →
      xj < w → y0 ≤ yt → yt < y0 + rows → (y0 + rows) * w ≤ pix.length →
      (rawLoopY colorSpace data w rows y0 di pix)[yt * w + xj]? =
        (if (yt - y0) * w + xj < c
         then some (rawPixelValue colorSpace data
           (di + ((yt - y0) * w + xj) * bytesPerPixelOf colorSpace))
         else pix[yt * w + xj]?) := by
  have hbpp : 0 < bytesPerPixelOf colorSpace := bytesPerPixelOf_pos colorSpace
  intro rows
  induction rows with
  | zero => intro y0 di c pix yt xj _ _ _ h; omega
  | succ rows ih =>
    intro y0 di c pix yt xj hc hxj hyt1 hyt2 hlen
    have hrowlen : y0 * w + 0 + w ≤ pix.length := by
      have h1 : (y0 + 1) * w ≤ (y0 + (rows + 1)) * w :=
        Nat.mul_le_mul_right w (by omega)
      have h2 : (y0 + 1) * w = y0 * w + w := by ring
      omega
    simp only [rawLoopY]
    split
    · rename_i hdi
      have hcpos : 0 < c := by
        rcases Nat.eq_zero_or_pos c with h0 | h0
        · subst h0; simp at hc; omega
        · exact h0
      obtain ⟨ihd, ihset, ihframe⟩ :=
        rawLoopX_main colorSpace data w y0 w 0 di c pix (by simpa using hc) hrowlen
      have hmincase : min w c ≤ c := Nat.min_le_right w c
      have hminw : min w c ≤ w := Nat.min_le_left w c
      have hc2 : data.length = (rawLoopX colorSpace data w y0 w 0 di pix).2
          + (c - min w c) * bytesPerPixelOf colorSpace := by
        rw [ihd]
        have h3 : min w c * bytesPerPixelOf colorSpace
            + (c - min w c) * bytesPerPixelOf colorSpace
            = c * bytesPerPixelOf colorSpace := by
          rw [← Nat.add_mul]
          congr 1
          omega
        omega
      have hlen2 : (y0 + 1 + rows) * w ≤ ((rawLoopX colorSpace data w y0 w 0 di pix).1).length := by
        rw [rawLoopX_length]
        have : (y0 + 1 + rows) * w = (y0 + (rows + 1)) * w := by ring
        omega
      by_cases hyteq : yt = y0
      · subst hyteq
        simp only [Nat.sub_self, Nat.zero_mul, Nat.zero_add]
        rw [rawLoopY_frame colorSpace data w rows (yt + 1) _ _ (yt * w + xj)
          (by have h2 : (yt + 1) * w = yt * w + w := by ring
              omega)]
        by_cases hxk : xj < min w c
        · rw [if_pos (by omega)]
          have := ihset xj hxk
          simpa using this
        · have hminc : min w c = c := by omega
          rw [if_neg (by omega)]
          have := ihframe (yt * w + xj) (by omega)
          simpa using this
      · have hys : y0 + 1 ≤ yt := by omega
        rw [ih (y0 + 1) _ (c - min w c) _ yt xj hc2 hxj (by omega) (by omega) hlen2]
        by_cases hcw : w ≤ c
        · have hminc : min w c = w := by omega
          rw [hminc] at ihd ihframe ⊢
          obtain ⟨m, hm⟩ : ∃ m, yt - y0 = m + 1 := ⟨yt - y0 - 1, by omega⟩
          have hm2 : yt - (y0 + 1) = m := by omega
          have hcondiff : (yt - (y0 + 1)) * w + xj < c - w ↔ (yt - y0) * w + xj < c := by
            rw [hm2, hm]
            have : (m + 1) * w = m * w + w := by ring
            omega
          by_cases hcond : (yt - y0) * w + xj < c
          · rw [if_pos (hcondiff.2 hcond), if_pos hcond]
            rw [ihd]
            congr 2
            rw [hm2, hm]
            ring
          · rw [if_neg (fun h => hcond (hcondiff.1 h)), if_neg hcond]
            exact ihframe (yt * w + xj)
              (by have h3 : (y0 + 1) * w ≤ yt * w := Nat.mul_le_mul_right w hys
                  have h4 : (y0 + 1) * w = y0 * w + w := by ring
                  omega)
        · have hminc : min w c = c := by omega
          rw [hminc] at ihd ihframe
          have hzero : c - c = 0 := by omega
          rw [hminc, hzero]
          rw [if_neg (by omega)]
          have hcond : ¬ (yt - y0) * w + xj < c := by
            have h3 : w ≤ (yt - y0) * w := Nat.le_mul_of_pos_left w (by omega)
            omega
          rw [if_neg hcond]
          exact ihframe (yt * w + xj)
            (by have h3 : (y0 + 1) * w ≤ yt * w := Nat.mul_le_mul_right w hys
                have h4 : (y0 + 1) * w = y0 * w + w := by ring
                omega)
    · rename_i hdi
      have hc0 : c = 0 := by
        rcases Nat.eq_zero_or_pos c with h0 | h0
        · exact h0
        · exfalso
          have h3 : bytesPerPixelOf colorSpace ≤ c * bytesPerPixelOf colorSpace :=
            Nat.le_mul_of_pos_left _ h0
          omega
      subst hc0
      rw [if_neg (by omega)]

/-- Common reduction of `decodeRawImageData` at 8 bits per component with
valid dimensions and a named color space: only the data-size check and the
pixel loops remain. -/
theorem decodeRawImageData_8bit_eq (data : List Nat) (width height : Int)
    (colorSpace : String) (hw : 0 < width) (hh : 0 < height)
    (hmax : width * height ≤ 4000000) (hcs : colorSpace ≠ "") :
    decodeRawImageData data width height colorSpace 8 =
      (if data.length < width.toNat * height.toNat * bytesPerPixelOf colorSpace ∧
          data.length < width.toNat * height.toNat
       then .ok (createPlaceholderImage width.toNat height.toNat)
       else .ok ⟨width.toNat, height.toNat,
         rawLoopY colorSpace data width.toNat height.toNat 0 0
           (List.replicate (width.toNat * height.toNat) zeroRGBA)⟩) := by
  simp only [decodeRawImageData, if_neg hcs]
  rw [if_neg (by omega), if_neg (by omega), if_neg (by decide), if_neg (by decide)]

/-- **C4 counterexample.** For the 8-bit grayscale decode of a 2×1 image
from the single byte `[100]` — a buffer shorter than the required
2×1×1 bytes — the decoder does **not** proceed pixel-by-pixel (which would
give a first pixel of gray level 100 and a zero-kept second pixel): it
returns the light-gray placeholder instead. -/
theorem decodeRawImageData_short_gray_counterexample :
    decodeRawImageData [100] 2 1 "DeviceGray" 8 = .ok (createPlaceholderImage 2 1) ∧
    (createPlaceholderImage 2 1).pix = [gray240, gray240] ∧
    gray240 ≠ ⟨100, 100, 100, 255⟩ ∧ gray240 ≠ zeroRGBA :=
  ⟨by rfl, by rfl, by decide, by decide⟩

/-- **C4 (amended).** For every 8-bit raw decode with valid dimensions
whose byte buffer is shorter than width·height·bytesPerPixel: if the
buffer holds fewer than width·height bytes the decoder returns the
light-gray placeholder; otherwise it silently stops without error,
returning a bitmap of the declared dimensions, and — when the buffer
length is additionally a multiple of bytesPerPixel, so that the data runs
out at a pixel boundary — decoding proceeds pixel-by-pixel through the
available whole pixels and every pixel not reached keeps its
zero-initialized value. -/
theorem decodeRawImageData_short_buffer_spec
    (data : List Nat) (width height : Int) (colorSpace : String)
    (hw : 0 < width) (hh : 0 < height)
    (hmax : width * height ≤ 4000000) (hcs : colorSpace ≠ "")
    (hshort : data.length < width.toNat * height.toNat * bytesPerPixelOf colorSpace) :
    (data.length < width.toNat * height.toNat →
      decodeRawImageData data width height colorSpace 8 =
        .ok (createPlaceholderImage width.toNat height.toNat)) ∧
    (width.toNat * height.toNat ≤ data.length →
      ∃ img, decodeRawImageData data width height colorSpace 8 = .ok img ∧
        img.width = width.toNat ∧ img.height = height.toNat ∧
        img.pix.length = width.toNat * height.toNat) ∧
    (width.toNat * height.toNat ≤ data.length →
      bytesPerPixelOf colorSpace ∣ data.length →
      ∃ img, decodeRawImageData data width height colorSpace 8 = .ok img ∧
        img.width = width.toNat ∧ img.height = height.toNat ∧
        ∀ j, j < width.toNat * height.toNat →
          img.pix[j]? =
            (if j < data.length / bytesPerPixelOf colorSpace
             then some (rawPixelValue colorSpace data (j * bytesPerPixelOf colorSpace))
             else some zeroRGBA)) := by
  have heq := decodeRawImageData_8bit_eq data width height colorSpace hw hh hmax hcs
  have hw0 : 0 < width.toNat := by omega
  have hh0 : 0 < height.toNat := by omega
  refine ⟨?_, ?_, ?_⟩
  · intro hlt
    rw [heq, if_pos ⟨hshort, hlt⟩]
  · intro hge
    rw [heq, if_neg (by omega)]
    refine ⟨_, rfl, rfl, rfl, ?_⟩
    rw [rawLoopY_length, List.length_replicate]
  · intro hge hdvd
    rw [heq, if_neg (by omega)]
    refine ⟨_, rfl, rfl, rfl, ?_⟩
    intro j hj
    have hxj : j % width.toNat < width.toNat := Nat.mod_lt _ hw0
    have hyt : j / width.toNat < height.toNat := by
      rw [Nat.div_lt_iff_lt_mul hw0, Nat.mul_comm]
      exact hj
    have hc : data.length = 0 + data.length / bytesPerPixelOf colorSpace
        * bytesPerPixelOf colorSpace := by
      rw [Nat.zero_add, Nat.div_mul_cancel hdvd]
    have hmain := rawLoopY_main colorSpace data width.toNat hw0 height.toNat 0 0
      (data.length / bytesPerPixelOf colorSpace)
      (List.replicate (width.toNat * height.toNat) zeroRGBA)
      (j / width.toNat) (j % width.toNat) hc hxj (Nat.zero_le _) (by omega)
      (by rw [List.length_replicate]
          have : (0 + height.toNat) * width.toNat = width.toNat * height.toNat := by ring
          omega)
    have hsplit : j / width.toNat * width.toNat + j % width.toNat = j := by
      rw [Nat.mul_comm]
      exact Nat.div_add_mod j width.toNat
    rw [hsplit] at hmain
    simp only [Nat.sub_zero, Nat.zero_add] at hmain
    rw [hmain, hsplit]
    split
    · rfl
    · rw [List.getElem?_replicate, if_pos hj]

/-- Witness for the amended C4: an RGB 2×2 decode from 6 bytes (two whole
pixels of the 12 required): pixels 0 and 1 are decoded, pixels 2 and 3 keep
their zero value. -/
theorem decodeRawImageData_short_buffer_spec_witness :
    (([1, 2, 3, 4, 5, 6] : List Nat).length
        < 2 * 2 * bytesPerPixelOf "DeviceRGB") ∧
    (∃ img, decodeRawImageData [1, 2, 3, 4, 5, 6] 2 2 "DeviceRGB" 8 = .ok img ∧
      img.width = 2 ∧ img.height = 2 ∧ img.pix.length = 2 * 2) ∧
    (∃ img, decodeRawImageData [1, 2, 3, 4, 5, 6] 2 2 "DeviceRGB" 8 = .ok img ∧
      img.width = 2 ∧ img.height = 2 ∧
      ∀ j, j < 2 * 2 →
        img.pix[j]? =
          (if j < ([1, 2, 3, 4, 5, 6] : List Nat).length / bytesPerPixelOf "DeviceRGB"
           then some (rawPixelValue "DeviceRGB" [1, 2, 3, 4, 5, 6]
             (j * bytesPerPixelOf "DeviceRGB"))
           else some zeroRGBA)) :=
  ⟨by decide,
    (decodeRawImageData_short_buffer_spec [1, 2, 3, 4, 5, 6] 2 2 "DeviceRGB"
      (by norm_num) (by norm_num) (by norm_num) (by decide) (by decide)).2.1
      (by decide),
    (decodeRawImageData_short_buffer_spec [1, 2, 3, 4, 5, 6] 2 2 "DeviceRGB"
      (by norm_num) (by norm_num) (by norm_num) (by decide) (by decide)).2.2
      (by decide) (by decide)⟩

/-- Witness for the amended C6 at channel bytes (51, 102, 153, 51). -/
theorem decodeRawImageData_cmyk_float_spec_witness :
    decodeRawImageData [51, 102, 153, 51] 1 1 "DeviceCMYK" 8 =
      .ok ⟨1, 1, [⟨cmykChannel 51 51, cmykChannel 102 51, cmykChannel 153 51, 255⟩]⟩ :=
  (decodeRawImageData_cmyk_float_spec 51 102 153 51
    (by norm_num) (by norm_num) (by norm_num) (by norm_num)).1

end PdfConv

/-!
## The `uml` diagram detector (`DetectDiagramsInImage`, `analyzeImageMetadata`)

Strings are modelled as `List Char`; Go `strings.Contains` becomes infix
search, `strings.ToLower` becomes ASCII lowering (the repository only ever
matches ASCII keywords), `filepath.Base` is the Unix basename.  Go
`float64` confidences become exact rationals.
-/

namespace Uml

/-- ASCII lower-casing of a single character. -/
def asciiLowerChar (c : Char) : Char :=
  if 'A' ≤ c ∧ c ≤ 'Z' then Char.ofNat (c.toNat + 32) else c

/-- `strings.ToLower` (ASCII fragment). -/
def strToLower (s : List Char) : List Char := s.map asciiLowerChar

/-- `strings.Contains(s, pat)`: `pat` occurs as a contiguous substring of
`s` (match attempted at every position). -/
def strContains (s pat : List Char) : Bool :=
  match s with
  | [] => pat.isPrefixOf []
  | c :: rest => pat.isPrefixOf (c :: rest) || strContains rest pat

/-- `filepath.Base` for Unix paths: empty path ↦ ".", all-slash path ↦ "/",
otherwise the component after the last slash (trailing slashes stripped). -/
def goFilepathBase (path : List Char) : List Char :=
  if path = [] then ['.']
  else
    let trimmed := (path.reverse.dropWhile (fun c => c = '/')).reverse
    if trimmed = [] then ['/']
    else (trimmed.reverse.takeWhile (fun c => c ≠ '/')).reverse

/-- `DiagramType` with its constants. -/
inductive DiagramType where
  | UnknownDiagram
  | FlowChart
  | BlockDiagram
  | CircuitDiagram
  | NetworkDiagram
  | SequenceDiagram
  | ClassDiagram
  | ERDiagram
deriving DecidableEq, Repr

/-- The configuration fields consumed by the detector and the Markdown
synthesizer (`config.Config`). -/
structure Config where
  DetectDiagrams : Bool
  DiagramConfidence : ℚ
  PlantUMLStyle : String
  PlantUMLColorScheme : String
  IncludeTOC : Bool
  BaseHeaderLevel : Nat
  ExtractImages : Bool
deriving DecidableEq, Repr

/-- `analyzeImageMetadata`: keyword heuristics over the lower-cased
basename of the image path, most-specific patterns first. -/
def analyzeImageMetadata (imagePath : List Char) : ℚ × DiagramType :=
  let filename := strToLower (goFilepathBase imagePath)
  if strContains filename "circuit".toList || strContains filename "electronic".toList then
    (0.8, .CircuitDiagram)
  else if strContains filename "block".toList || strContains filename "schematic".toList then
    (0.8, .BlockDiagram)
  else if strContains filename "network".toList || strContains filename "topology".toList then
    (0.8, .NetworkDiagram)
  else if strContains filename "flowchart".toList then
    (0.8, .FlowChart)
  else if strContains filename "diagram".toList then
    (0.8, .FlowChart)
  else if strContains filename "page_".toList && strContains filename "image_".toList then
    (0.6, .BlockDiagram)
  else
    (0.2, .UnknownDiagram)

/-- `applyPlantUMLStyle`: the configured theme and color-scheme directives. -/
def applyPlantUMLStyle (cfg : Config) : String :=
  (if cfg.PlantUMLStyle = "blueprint" then "!theme blueprint\n"
   else if cfg.PlantUMLStyle = "modern" then "!theme modern\n" else "") ++
  (if cfg.PlantUMLColorScheme = "mono" then "skinparam monochrome true\n"
   else if cfg.PlantUMLColorScheme = "color" then "skinparam monochrome false\n" else "") ++
  "\n"

/-- `generateFlowChartUML`. -/
def generateFlowChartUML : String :=
  "' Flowchart detected from PDF diagram\n" ++
  "start\n" ++ ":Process Input;\n" ++ "if (Condition?) then (yes)\n" ++
  "  :Action A;\n" ++ "else (no)\n" ++ "  :Action B;\n" ++ "endif\n" ++
  ":Generate Output;\n" ++ "stop\n\n" ++
  "note bottom : Diagram converted from PDF image\n"

/-- `generateBlockDiagramUML`. -/
def generateBlockDiagramUML : String :=
  "' Block diagram detected from PDF\n" ++
  "!define BLOCK(x) rectangle x\n\n" ++
  "BLOCK(Input) \x7b\n  [Input Signal]\n\x7d\n\n" ++
  "BLOCK(Process) \x7b\n  [Processing Unit]\n\x7d\n\n" ++
  "BLOCK(Output) \x7b\n  [Output Signal]\n\x7d\n\n" ++
  "[Input Signal] --> [Processing Unit]\n" ++
  "[Processing Unit] --> [Output Signal]\n\n" ++
  "note bottom : Block diagram converted from PDF image\n"

/-- `generateCircuitDiagramUML`. -/
def generateCircuitDiagramUML : String :=
  "' Circuit diagram detected from PDF\n" ++
  "!define COMPONENT(x) circle x\n\n" ++
  "COMPONENT(R1) \x7b\n  R1\\nResistor\n\x7d\n\n" ++
  "COMPONENT(C1) \x7b\n  C1\\nCapacitor\n\x7d\n\n" ++
  "rectangle VCC\nrectangle GND\n\n" ++
  "VCC --> R1\nR1 --> C1\nC1 --> GND\n\n" ++
  "note bottom : Circuit diagram converted from PDF image\n"

/-- `generateNetworkDiagramUML`. -/
def generateNetworkDiagramUML : String :=
  "' Network diagram detected from PDF\n" ++
  "!include <C4/C4_Container>\n\n" ++
  "Person(user, \"User\", \"End user\")\n" ++
  "System(server, \"Server\", \"Main server\")\n" ++
  "System(database, \"Database\", \"Data storage\")\n\n" ++
  "Rel(user, server, \"Connects to\")\n" ++
  "Rel(server, database, \"Reads/Writes\")\n\n" ++
  "note bottom : Network diagram converted from PDF image\n"

/-- `generateGenericDiagramUML`. -/
def generateGenericDiagramUML : String :=
  "' Generic diagram detected from PDF\n" ++
  "rectangle \"Component A\" as A\n" ++
  "rectangle \"Component B\" as B\n" ++
  "rectangle \"Component C\" as C\n\n" ++
  "A --> B\nB --> C\n\n" ++
  "note bottom : Generic diagram converted from PDF image\n"

/-- `generatePlantUML`: assembles the template for the detected type.  In
the source it returns `(string, error)` with the error always nil, so it
is modelled as a total function. -/
def generatePlantUML (cfg : Config) (diagramType : DiagramType) : String :=
  "@startuml\n" ++ applyPlantUMLStyle cfg ++
  (match diagramType with
   | .FlowChart => generateFlowChartUML
   | .BlockDiagram => generateBlockDiagramUML
   | .CircuitDiagram => generateCircuitDiagramUML
   | .NetworkDiagram => generateNetworkDiagramUML
   | _ => generateGenericDiagramUML) ++
  "@enduml\n"

/-- `DetectedDiagram` (the `image.Rectangle` bounding box is its four
coordinates). -/
structure DetectedDiagram where
  dtype : DiagramType
  confidence : ℚ
  plantUML : String
  imagePath : List Char
  boundingBox : Nat × Nat × Nat × Nat
deriving DecidableEq, Repr

/-- `DetectDiagramsInImage`: no-op when detection is disabled, otherwise
emits one diagram iff the heuristic confidence reaches the configured
threshold (`generatePlantUML` never fails, so its error branch is dead). -/
def DetectDiagramsInImage (cfg : Config) (imagePath : List Char) : List DetectedDiagram :=
  if !cfg.DetectDiagrams then []
  else
    let confidence := (analyzeImageMetadata imagePath).1
    let diagramType := (analyzeImageMetadata imagePath).2
    if confidence ≥ cfg.DiagramConfidence then
      [⟨diagramType, confidence, generatePlantUML cfg diagramType, imagePath, (0, 0, 400, 300)⟩]
    else []

/-- A rule pattern of the classification table: match if any listed
keyword occurs, or if all listed keywords occur. -/
inductive RulePat where
  | anyOf (pats : List (List Char))
  | allOf (pats : List (List Char))
deriving DecidableEq, Repr

/-- Whether a rule pattern matches a (lower-cased) filename. -/
def ruleMatches (filename : List Char) : RulePat → Bool
  | .anyOf pats => pats.any (fun p => strContains filename p)
  | .allOf pats => pats.all (fun p => strContains filename p)

/-- The classification rule table exactly as the specification lists it:
most-specific patterns first; the auto-generated `page_<n>_image_<m>`
naming pattern is recognized by its `page_` and `image_` substrings. -/
def classifierRules : List (RulePat × DiagramType × ℚ) :=
  [(.anyOf ["circuit".toList, "electronic".toList], .CircuitDiagram, 0.8),
   (.anyOf ["block".toList, "schematic".toList], .BlockDiagram, 0.8),
   (.anyOf ["network".toList, "topology".toList], .NetworkDiagram, 0.8),
   (.anyOf ["flowchart".toList], .FlowChart, 0.8),
   (.anyOf ["diagram".toList], .FlowChart, 0.8),
   (.allOf ["page_".toList, "image_".toList], .BlockDiagram, 0.6)]

/-- First-match-wins evaluation of a rule table; no match yields
`(0.2, Unknown)`. -/
def evalRules (filename : List Char) : List (RulePat × DiagramType × ℚ) → ℚ × DiagramType
  | [] => (0.2, .UnknownDiagram)
  | r :: rest => if ruleMatches filename r.1 then (r.2.2, r.2.1) else evalRules filename rest

end Uml

/-!
## Markdown synthesis (`generateMarkdown`, `generateTableOfContents`,
`formatTextContent`, `looksLikeHeader`)

The Markdown output is modelled as the ordered list of builder writes
(`strings.Builder.WriteString` calls), one `MDSeg` per write, so counting
emitted sections and separator rules is counting segments.
-/

namespace PdfConv

/-- ASCII upper-casing of a single character. -/
def asciiUpperChar (c : Char) : Char :=
  if 'a' ≤ c ∧ c ≤ 'z' then Char.ofNat (c.toNat - 32) else c

/-- `strings.ToUpper` (ASCII fragment). -/
def strToUpper (s : List Char) : List Char := s.map asciiUpperChar

/-- ASCII whitespace, as recognized by `strings.TrimSpace` / `strings.Fields`. -/
def isSpaceChar (c : Char) : Bool :=
  c = ' ' || c = '\t' || c = '\n' || c = '\r' || c = '\x0B' || c = '\x0C'

/-- `strings.TrimSpace` (ASCII fragment). -/
def goTrimSpace (s : List Char) : List Char :=
  ((s.dropWhile isSpaceChar).reverse.dropWhile isSpaceChar).reverse

/-- `strings.HasSuffix(s, pat)`. -/
def strHasSuffix (s pat : List Char) : Bool :=
  pat.reverse.isPrefixOf s.reverse

/-- Helper of `countFields`: counts maximal non-space runs, tracking
whether the scan is inside a field. -/
def fieldsAux : List Char → Bool → Nat
  | [], _ => 0
  | c :: rest, inField =>
    if isSpaceChar c then fieldsAux rest false
    else (if inField then 0 else 1) + fieldsAux rest true

/-- `len(strings.Fields(s))`: the number of whitespace-separated words. -/
def countFields (s : List Char) : Nat := fieldsAux s false

/-- The fixed section-keyword vocabulary of `looksLikeHeader`. -/
def headerKeywords : List (List Char) :=
  ["OVERVIEW".toList, "DESCRIPTION".toList, "FEATURES".toList, "SPECIFICATIONS".toList,
   "PARAMETERS".toList, "APPLICATIONS".toList, "CHARACTERISTICS".toList,
   "OPERATION".toList, "CONFIGURATION".toList]

/-- `looksLikeHeader`: a line longer than `DefaultHeaderLength` (60) is
never a header; otherwise, after trimming, it is a header iff it ends with
a colon, or is shorter than `ShortHeaderLength` (40), entirely upper-case
and at most `MaxHeaderWords` (5) words, or contains one of the fixed
section keywords case-insensitively. -/
def looksLikeHeader (line : List Char) : Bool :=
  if line.length > 60 then false
  else
    let line := goTrimSpace line
    if strHasSuffix line ":".toList then true
    else if line.length < 40 ∧ strToUpper line = line ∧ countFields line ≤ 5 then true
    else headerKeywords.any (fun kw => Uml.strContains (strToUpper line) kw)

/-- `dropWhile` never lengthens a list (termination helper). -/
theorem dropWhileLenLe (p : Char → Bool) (l : List Char) :
    (l.dropWhile p).length ≤ l.length := by
  induction l with
  | nil => simp
  | cons c rest ih =>
    rw [List.dropWhile_cons]
    split
    · simp only [List.length_cons]; omega
    · simp

/-- Cap every run of 3 or more consecutive newlines to exactly two — the
`regexp.MustCompile("\n\x7b3,\x7d").ReplaceAllString(result, "\n\n")`
normalization. -/
def capNewlines : List Char → List Char
  | [] => []
  | c :: rest =>
    if c = '\n' then
      let run := 1 + (rest.takeWhile (fun d => d = '\n')).length
      let rest2 := rest.dropWhile (fun d => d = '\n')
      (if run ≥ 3 then ['\n', '\n'] else List.replicate run '\n') ++ capNewlines rest2
    else c :: capNewlines rest
termination_by s => s.length
decreasing_by
  · simp only [List.length_cons]
    have := dropWhileLenLe (fun d => d = '\n') rest
    omega
  · simp [Nat.lt_succ_iff]

/-- The per-line loop of `formatTextContent`: trims each line, drops blank
lines, surrounds detected headers with blank lines and prefixes them at
`BaseHeaderLevel+2` depth. -/
def formatLinesLoop (cfg : Uml.Config) (formatted : List (List Char)) :
    List (List Char) → List (List Char)
  | [] => formatted
  | l :: rest =>
    let line := goTrimSpace l
    if line = [] then formatLinesLoop cfg formatted rest
    else if looksLikeHeader line then
      formatLinesLoop cfg
        (formatted ++ (if formatted ≠ [] then [[]] else []) ++
          [List.replicate (cfg.BaseHeaderLevel + 2) '#' ++ [' '] ++ line] ++ [[]]) rest
    else formatLinesLoop cfg (formatted ++ [line]) rest

/-- `formatTextContent`: split into lines, reflow headers, rejoin and
normalize newline runs. -/
def formatTextContent (cfg : Uml.Config) (text : List Char) : List Char :=
  if text = [] then []
  else
    let lines := text.splitOn '\n'
    let formatted := formatLinesLoop cfg [] lines
    capNewlines (List.intercalate ['\n'] formatted)

end PdfConv

namespace PdfConv

/-- An image extracted from a PDF page (`PDFImage`). -/
structure PDFImage where
  Data : GoImage
  Width : Nat
  Height : Nat
  Filename : String
  Diagrams : List Uml.DetectedDiagram
deriving DecidableEq, Repr

/-- A page's extracted content (`PDFPage`); page numbers are Go `int`s. -/
structure PDFPage where
  Number : Int
  Text : List Char
  Images : List PDFImage
deriving DecidableEq, Repr

/-- One `WriteString` call of the Markdown builder: the document title,
the table-of-contents header, a TOC entry, a lone newline, a page header
at a given depth, a page's reflowed text, an image reference, a diagram's
Markdown rendering, or the page-separator rule `"---\n\n"`. -/
inductive MDSeg where
  | docTitle
  | tocHeader
  | tocEntry (n : Int)
  | blank
  | pageHeader (level : Nat) (n : Int)
  | pageText (s : List Char)
  | imageRef (filename : String)
  | diagramBlock (d : Uml.DetectedDiagram)
  | pageSeparator
deriving DecidableEq, Repr

/-- `generateTableOfContents`: the TOC header, one entry per page, and a
closing newline. -/
def generateTableOfContents (pages : List PDFPage) : List MDSeg :=
  [.tocHeader] ++ pages.map (fun p => .tocEntry p.Number) ++ [.blank]

/-- The writes performed for a single page inside `generateMarkdown`'s
page loop: header, text (when non-empty), image references each followed
by its diagrams' Markdown, then a separator when `page.Number < len(pages)`. -/
def pageSegs (cfg : Uml.Config) (total : Nat) (page : PDFPage) : List MDSeg :=
  [.pageHeader (cfg.BaseHeaderLevel + 1) page.Number] ++
  (if page.Text ≠ [] then [.pageText (formatTextContent cfg page.Text)] else []) ++
  (page.Images.map (fun img =>
    [MDSeg.imageRef img.Filename] ++
      img.Diagrams.map (fun d => MDSeg.diagramBlock d))).flatten ++
  (if page.Number < (total : Int) then [.pageSeparator] else [])

/-- `generateMarkdown`: document title, optional table of contents
followed by one extra newline, then every page's writes in order. -/
def generateMarkdown (cfg : Uml.Config) (pages : List PDFPage) : List MDSeg :=
  [.docTitle] ++
  (if cfg.IncludeTOC then generateTableOfContents pages ++ [.blank] else []) ++
  (pages.map (pageSegs cfg pages.length)).flatten

end PdfConv

namespace PdfConv

/-- Recognizer for the page-separator segment. -/
def isSep : MDSeg → Bool
  | .pageSeparator => true
  | _ => false

/-- Recognizer for the table-of-contents header segment. -/
def isTocHeader : MDSeg → Bool
  | .tocHeader => true
  | _ => false

/-- Recognizer for a table-of-contents entry segment. -/
def isTocEntry : MDSeg → Bool
  | .tocEntry _ => true
  | _ => false

/-- A page's image writes contain no separator, TOC header or TOC entry. -/
theorem imageSegs_countP_zero (q : MDSeg → Bool)
    (hi : ∀ f, q (.imageRef f) = false) (hd : ∀ d, q (.diagramBlock d) = false)
    (imgs : List PDFImage) :
    ((imgs.map (fun img =>
      [MDSeg.imageRef img.Filename] ++
        img.Diagrams.map (fun d => MDSeg.diagramBlock d))).flatten).countP q = 0 := by
  induction imgs with
  | nil => rfl
  | cons img rest ih =>
    simp only [List.map_cons, List.flatten_cons, List.countP_append, ih,
      List.countP_cons, List.countP_append]
    have hds : (img.Diagrams.map (fun d => MDSeg.diagramBlock d)).countP q = 0 := by
      induction img.Diagrams with
      | nil => rfl
      | cons d ds ihd =>
        simp only [List.map_cons, List.countP_cons, ihd, hd]
        simp
    simp [List.countP_cons, hi, hds, List.countP_nil]

/-- Separator count of one page's writes: 1 iff `page.Number < total`. -/
theorem pageSegs_sep_count (cfg : Uml.Config) (total : Nat) (page : PDFPage) :
    (pageSegs cfg total page).countP isSep
      = if page.Number < (total : Int) then 1 else 0 := by
  unfold pageSegs
  rw [List.countP_append, List.countP_append, List.countP_append]
  have h1 : ([MDSeg.pageHeader (cfg.BaseHeaderLevel + 1) page.Number]).countP isSep = 0 := rfl
  have h2 : (if page.Text ≠ [] then [MDSeg.pageText (formatTextContent cfg page.Text)]
      else []).countP isSep = 0 := by split <;> rfl
  have h3 := imageSegs_countP_zero isSep (fun _ => rfl) (fun _ => rfl) page.Images
  have h4 : (if page.Number < (total : Int) then [MDSeg.pageSeparator]
      else []).countP isSep = if page.Number < (total : Int) then 1 else 0 := by
    split <;> rfl
  omega

/-- Any per-page recognizer false on every page-loop constructor counts 0
across one page's writes. -/
theorem pageSegs_countP_zero (q : MDSeg → Bool)
    (hh : ∀ lvl n, q (.pageHeader lvl n) = false) (ht : ∀ s, q (.pageText s) = false)
    (hi : ∀ f, q (.imageRef f) = false) (hd : ∀ d, q (.diagramBlock d) = false)
    (hs : q .pageSeparator = false)
    (cfg : Uml.Config) (total : Nat) (page : PDFPage) :
    (pageSegs cfg total page).countP q = 0 := by
  unfold pageSegs
  rw [List.countP_append, List.countP_append, List.countP_append]
  have h1 : ([MDSeg.pageHeader (cfg.BaseHeaderLevel + 1) page.Number]).countP q = 0 := by
    simp [List.countP_cons, hh]
  have h2 : (if page.Text ≠ [] then [MDSeg.pageText (formatTextContent cfg page.Text)]
      else []).countP q = 0 := by
    split
    · simp [List.countP_cons, ht]
    · rfl
  have h3 := imageSegs_countP_zero q hi hd page.Images
  have h4 : (if page.Number < (total : Int) then [MDSeg.pageSeparator]
      else []).countP q = 0 := by
    split
    · simp [List.countP_cons, hs]
    · rfl
  omega

/-- Separator count of the whole page loop for pages numbered
`k+1, ..., k+len = N` consecutively: one separator between consecutive
pages and none after the last, `len - 1` in total. -/
theorem bodySegs_sep_count (cfg : Uml.Config) (N : Nat) :
    ∀ (l : List PDFPage) (k : Nat),
      (∀ i (h : i < l.length), (l.get ⟨i, h⟩).Number = (k : Int) + i + 1) →
      k + l.length = N →
      ((l.map (pageSegs cfg N)).flatten).countP isSep = l.length - 1 := by
  intro l
  induction l with
  | nil => intro k _ _; rfl
  | cons p rest ih =>
    intro k hnum hN
    have hp : p.Number = (k : Int) + 1 := by
      have := hnum 0 (by simp)
      simpa using this
    have hrest : ∀ i (h : i < rest.length),
        (rest.get ⟨i, h⟩).Number = ((k + 1 : Nat) : Int) + i + 1 := by
      intro i h
      have := hnum (i + 1) (by simpa using Nat.succ_lt_succ h)
      simp only [List.get_cons_succ] at this
      rw [this]
      push_cast
      ring
    simp only [List.map_cons, List.flatten_cons, List.countP_append]
    rw [pageSegs_sep_count, ih (k + 1) hrest (by simp at hN ⊢; omega)]
    cases rest with
    | nil =>
      have hk : k + 1 = N := by simpa using hN
      rw [if_neg (by rw [hp]; omega)]
      simp
    | cons q qs =>
      have hlt : k + 1 < N := by simp at hN; omega
      rw [if_pos (by rw [hp]; push_cast; omega)]
      simp only [List.length_cons]
      omega

end PdfConv

namespace PdfConv

/-- **C8 counterexample.** Two pages numbered 2 and 3 (as `extractPagesContent`
produces when page 1 is null and skipped): synthesis emits zero page
separators, not N−1 = 1 — the separator condition is `page.Number < len(pages)`,
not the page's position. -/
theorem generateMarkdown_shifted_pages_counterexample :
    (generateMarkdown ⟨false, 0.7, "default", "auto", true, 1, true⟩
        [⟨2, [], []⟩, ⟨3, [], []⟩]).countP isSep
      ≠ ([(⟨2, [], []⟩ : PDFPage), ⟨3, [], []⟩].length - 1) := by
  decide

/-- TOC entries never count toward a recognizer that rejects them. -/
theorem tocEntries_countP_zero (q : MDSeg → Bool)
    (hq : ∀ n, q (.tocEntry n) = false) :
    ∀ pages : List PDFPage,
      (pages.map (fun p => MDSeg.tocEntry p.Number)).countP q = 0 := by
  intro pages
  induction pages with
  | nil => rfl
  | cons p rest ih =>
    simp only [List.map_cons, List.countP_cons, hq, ih]
    simp

/-- A recognizer that counts 0 on every page's writes counts 0 on the
whole page loop. -/
theorem bodySegs_countP_zero (q : MDSeg → Bool) (cfg : Uml.Config) (N : Nat)
    (hq : ∀ page, (pageSegs cfg N page).countP q = 0) :
    ∀ pages : List PDFPage,
      ((pages.map (pageSegs cfg N)).flatten).countP q = 0 := by
  intro pages
  induction pages with
  | nil => rfl
  | cons p rest ih =>
    simp only [List.map_cons, List.flatten_cons, List.countP_append, hq, ih]

/-- TOC entries all count toward the TOC-entry recognizer. -/
theorem tocEntries_countP_all (pages : List PDFPage) :
    (pages.map (fun p => MDSeg.tocEntry p.Number)).countP isTocEntry
      = pages.length := by
  induction pages with
  | nil => rfl
  | cons p rest ih =>
    simp only [List.map_cons, List.countP_cons, List.length_cons, ih]
    simp [isTocEntry]

/-- **C8 (amended).** For every ordered sequence of N pages numbered
consecutively 1..N (the numbering `extractPagesContent` produces when no
page is skipped), Markdown synthesis emits — when the table-of-contents
option is enabled — exactly one table-of-contents section with one entry
per page (and none when disabled), and emits a page-separator rule between
consecutive pages but never after the final page: exactly N−1 separators
for N pages. -/
theorem generateMarkdown_toc_sep_spec (cfg : Uml.Config) (pages : List PDFPage)
    (hnum : ∀ i (h : i < pages.length), (pages.get ⟨i, h⟩).Number = (i : Int) + 1) :
    (generateMarkdown cfg pages).countP isSep = pages.length - 1 ∧
    (generateMarkdown cfg pages).countP isTocHeader
      = (if cfg.IncludeTOC then 1 else 0) ∧
    (generateMarkdown cfg pages).countP isTocEntry
      = (if cfg.IncludeTOC then pages.length else 0) ∧
    (∀ p, pages.getLast? = some p →
      (pageSegs cfg pages.length p).countP isSep = 0) := by
  have hbody := bodySegs_sep_count cfg pages.length pages 0
    (by intro i h; simpa using hnum i h) (by simp)
  have hentries0 : ∀ q : MDSeg → Bool, (∀ n, q (.tocEntry n) = false) →
      (pages.map (fun p => MDSeg.tocEntry p.Number)).countP q = 0 :=
    fun q hq => tocEntries_countP_zero q hq pages
  have hbodyTocH := fun page => pageSegs_countP_zero isTocHeader
    (fun _ _ => rfl) (fun _ => rfl) (fun _ => rfl) (fun _ => rfl) rfl
    cfg pages.length page
  have hbodyTocE := fun page => pageSegs_countP_zero isTocEntry
    (fun _ _ => rfl) (fun _ => rfl) (fun _ => rfl) (fun _ => rfl) rfl
    cfg pages.length page
  have hbodyzero : ∀ q : MDSeg → Bool,
      (∀ page, (pageSegs cfg pages.length page).countP q = 0) →
      ((pages.map (pageSegs cfg pages.length)).flatten).countP q = 0 :=
    fun q hq => bodySegs_countP_zero q cfg pages.length hq pages
  refine ⟨?_, ?_, ?_, ?_⟩
  · unfold generateMarkdown
    rw [List.countP_append, List.countP_append, hbody]
    have h1 : ([MDSeg.docTitle]).countP isSep = 0 := rfl
    have h2 : (if cfg.IncludeTOC then generateTableOfContents pages ++ [MDSeg.blank]
        else []).countP isSep = 0 := by
      split
      · unfold generateTableOfContents
        rw [List.countP_append, List.countP_append, List.countP_append]
        have := hentries0 isSep (fun _ => rfl)
        simp [List.countP_cons, isSep, this]
      · rfl
    omega
  · unfold generateMarkdown
    rw [List.countP_append, List.countP_append,
      hbodyzero isTocHeader hbodyTocH]
    have h2 : (if cfg.IncludeTOC then generateTableOfContents pages ++ [MDSeg.blank]
        else []).countP isTocHeader = if cfg.IncludeTOC then 1 else 0 := by
      split
      · unfold generateTableOfContents
        rw [List.countP_append, List.countP_append, List.countP_append]
        have := hentries0 isTocHeader (fun _ => rfl)
        simp [List.countP_cons, isTocHeader, this]
      · rfl
    rw [h2]
    have h0 : ([MDSeg.docTitle]).countP isTocHeader = 0 := rfl
    split <;> omega
  · unfold generateMarkdown
    rw [List.countP_append, List.countP_append,
      hbodyzero isTocEntry hbodyTocE]
    have hentriesN := tocEntries_countP_all pages
    have h2 : (if cfg.IncludeTOC then generateTableOfContents pages ++ [MDSeg.blank]
        else []).countP isTocEntry = if cfg.IncludeTOC then pages.length else 0 := by
      split
      · unfold generateTableOfContents
        rw [List.countP_append, List.countP_append, List.countP_append]
        simp [List.countP_cons, isTocEntry, hentriesN]
      · rfl
    rw [h2]
    have h0 : ([MDSeg.docTitle]).countP isTocEntry = 0 := rfl
    split <;> omega
  · intro p hp
    have hne : pages ≠ [] := by
      intro h
      rw [h] at hp
      cases hp
    have hlen : 0 < pages.length := List.length_pos.2 hne
    have hget : p = pages.get ⟨pages.length - 1, by omega⟩ := by
      have := List.getLast?_eq_getLast pages hne
      rw [this] at hp
      have h2 := List.getLast_eq_get pages hne
      injection hp with hp2
      rw [← hp2, h2]
    have hnump : p.Number = ((pages.length - 1 : Nat) : Int) + 1 := by
      rw [hget]
      exact hnum (pages.length - 1) (by omega)
    rw [pageSegs_sep_count, if_neg]
    rw [hnump]
    omega

/-- Witness for the amended C8: three pages numbered 1..3 with TOC enabled
give one TOC header, three TOC entries, and exactly two separators. -/
theorem generateMarkdown_toc_sep_spec_witness :
    (generateMarkdown ⟨false, 0.7, "default", "auto", true, 1, true⟩
        [⟨1, [], []⟩, ⟨2, [], []⟩, ⟨3, [], []⟩]).countP isSep
      = [(⟨1, [], []⟩ : PDFPage), ⟨2, [], []⟩, ⟨3, [], []⟩].length - 1 ∧
    (generateMarkdown ⟨false, 0.7, "default", "auto", true, 1, true⟩
        [⟨1, [], []⟩, ⟨2, [], []⟩, ⟨3, [], []⟩]).countP isTocHeader
      = (if (⟨false, 0.7, "default", "auto", true, 1, true⟩ : Uml.Config).IncludeTOC
         then 1 else 0) ∧
    (generateMarkdown ⟨false, 0.7, "default", "auto", true, 1, true⟩
        [⟨1, [], []⟩, ⟨2, [], []⟩, ⟨3, [], []⟩]).countP isTocEntry
      = (if (⟨false, 0.7, "default", "auto", true, 1, true⟩ : Uml.Config).IncludeTOC
         then [(⟨1, [], []⟩ : PDFPage), ⟨2, [], []⟩, ⟨3, [], []⟩].length else 0) ∧
    (∀ p, [(⟨1, [], []⟩ : PDFPage), ⟨2, [], []⟩, ⟨3, [], []⟩].getLast? = some p →
      (pageSegs ⟨false, 0.7, "default", "auto", true, 1, true⟩
        [(⟨1, [], []⟩ : PDFPage), ⟨2, [], []⟩, ⟨3, [], []⟩].length p).countP isSep = 0) :=
  generateMarkdown_toc_sep_spec ⟨false, 0.7, "default", "auto", true, 1, true⟩
    [⟨1, [], []⟩, ⟨2, [], []⟩, ⟨3, [], []⟩]
    (by intro i h
        simp only [List.length_cons, List.length_nil] at h
        interval_cases i <;> rfl)

end PdfConv

namespace Uml

/-- **C7.** Classification is the first-match-wins ordered rule table over
case-insensitive substring matches of the filename — circuit/electronic ↦
Circuit 0.8, then block/schematic ↦ Block 0.8, then network/topology ↦
Network 0.8, then flowchart ↦ FlowChart 0.8, then generic diagram ↦
FlowChart 0.8, then the auto-generated `page_<n>_image_<m>` naming pattern
↦ Block 0.6, otherwise Unknown 0.2 — so "block_diagram" resolves to Block,
not FlowChart; and the detector returns zero or one Diagram, emitting one
iff detection is enabled and the confidence reaches the configured
threshold. -/
theorem diagramClassifier_spec :
    (∀ path : List Char,
      analyzeImageMetadata path
        = evalRules (strToLower (goFilepathBase path)) classifierRules) ∧
    analyzeImageMetadata "block_diagram.png".toList = (0.8, .BlockDiagram) ∧
    (∀ (cfg : Config) (path : List Char),
      (DetectDiagramsInImage cfg path).length ≤ 1 ∧
      ((DetectDiagramsInImage cfg path).length = 1 ↔
        cfg.DetectDiagrams = true ∧
          cfg.DiagramConfidence ≤ (analyzeImageMetadata path).1)) := by
  refine ⟨?_, ?_, ?_⟩
  · intro path
    simp [analyzeImageMetadata, evalRules, classifierRules, ruleMatches]
  · simp [analyzeImageMetadata, strContains, strToLower, goFilepathBase,
      asciiLowerChar, List.isPrefixOf]
  · intro cfg path
    unfold DetectDiagramsInImage
    by_cases hd : cfg.DetectDiagrams
    · simp only [hd, Bool.not_true, Bool.false_eq_true, if_false]
      by_cases hc : cfg.DiagramConfidence ≤ (analyzeImageMetadata path).1
      · rw [if_pos hc]
        refine ⟨by simp, ?_⟩
        simp [hd, hc]
      · rw [if_neg hc]
        refine ⟨by simp, ?_⟩
        simp [hd, hc]
    · have hd2 : cfg.DetectDiagrams = false := by simpa using hd
      simp [hd2]

end Uml

namespace PdfConv

/-- **C9.** A line longer than 60 characters is never classified as a
header, even when it contains a section keyword or ends with a colon; and
every line of at most 60 characters whose trimmed form ends with a colon,
or is under 40 characters, entirely upper-case and at most 5
whitespace-delimited words, or contains one of the fixed section keywords
case-insensitively, is classified as a header. -/
theorem looksLikeHeader_spec (line : List Char) :
    (line.length > 60 → looksLikeHeader line = false) ∧
    (line.length ≤ 60 →
      (strHasSuffix (goTrimSpace line) ":".toList = true ∨
       ((goTrimSpace line).length < 40 ∧
         strToUpper (goTrimSpace line) = goTrimSpace line ∧
         countFields (goTrimSpace line) ≤ 5) ∨
       (∃ kw ∈ headerKeywords,
         Uml.strContains (strToUpper (goTrimSpace line)) kw = true)) →
      looksLikeHeader line = true) := by
  constructor
  · intro h
    unfold looksLikeHeader
    rw [if_pos h]
  · intro hle hcond
    unfold looksLikeHeader
    rw [if_neg (by omega)]
    by_cases hsuf : strHasSuffix (goTrimSpace line) ":".toList = true
    · rw [if_pos hsuf]
    · rw [if_neg hsuf]
      by_cases hcap : (goTrimSpace line).length < 40 ∧
          strToUpper (goTrimSpace line) = goTrimSpace line ∧
          countFields (goTrimSpace line) ≤ 5
      · rw [if_pos hcap]
      · rw [if_neg hcap]
        rcases hcond with h1 | h2 | h3
        · exact absurd h1 hsuf
        · exact absurd h2 hcap
        · obtain ⟨kw, hkmem, hkw⟩ := h3
          exact List.any_eq_true.2 ⟨kw, hkmem, hkw⟩

/-- Witness for C9: a 54-character line containing the keyword
SPECIFICATIONS is a header. -/
theorem looksLikeHeader_spec_witness :
    ("SPECIFICATIONS of the device, measured at 25 C".toList.length ≤ 60) ∧
    looksLikeHeader "SPECIFICATIONS of the device, measured at 25 C".toList = true :=
  ⟨by decide,
    (looksLikeHeader_spec "SPECIFICATIONS of the device, measured at 25 C".toList).2
      (by decide)
      (Or.inr (Or.inr ⟨"SPECIFICATIONS".toList, by decide, by decide⟩))⟩

end PdfConv

/-!
## Batch orchestration (`ConvertPDFsInDirectory`)

The filesystem interactions are abstracted as parameters: `dirExists` is
the `os.Stat` check, `findResult` the outcome of `findPDFFiles`, and
`convert` the `ConvertPDF` call applied to each discovered path.
-/

namespace PdfConv

/-- `ConversionResult`. -/
structure ConversionResult where
  OutputDir : String
  MarkdownFile : String
  ImageCount : Nat
  PageCount : Nat
deriving DecidableEq, Repr

/-- `ConversionError`. -/
structure ConversionError where
  PDFPath : String
  Error : String
deriving DecidableEq, Repr

/-- `BatchConversionResult`. -/
structure BatchConversionResult where
  InputDir : String
  OutputBaseDir : String
  Results : List ConversionResult
  SuccessCount : Nat
  FailureCount : Nat
  Errors : List ConversionError
  FileCount : Nat
  TotalPageCount : Nat
  TotalImageCount : Nat
deriving DecidableEq, Repr

/-- Whether a conversion outcome is a success. -/
def convOk : Except String ConversionResult → Bool
  | .ok _ => true
  | .error _ => false

/-- The per-file loop of `ConvertPDFsInDirectory`: a failure appends a
`ConversionError` and continues; a success appends the result and updates
the totals. -/
def batchLoop (convert : String → Except String ConversionResult) :
    List String → BatchConversionResult → BatchConversionResult
  | [], result => result
  | pdfPath :: rest, result =>
    match convert pdfPath with
    | .error e =>
      batchLoop convert rest
        { result with
          FailureCount := result.FailureCount + 1,
          Errors := result.Errors ++ [⟨pdfPath, e⟩] }
    | .ok cr =>
      batchLoop convert rest
        { result with
          SuccessCount := result.SuccessCount + 1,
          Results := result.Results ++ [cr],
          TotalPageCount := result.TotalPageCount + cr.PageCount,
          TotalImageCount := result.TotalImageCount + cr.ImageCount }

/-- `ConvertPDFsInDirectory`: fails only when the input directory is
missing or unreadable; an empty listing yields the all-zero batch result;
otherwise every discovered file is converted in order and `FileCount` is
set to the number of files found. -/
def ConvertPDFsInDirectory (convert : String → Except String ConversionResult)
    (dirExists : Bool) (findResult : Except String (List String))
    (inputDir outputBaseDir : String) : Except String BatchConversionResult :=
  if !dirExists then .error ("input directory does not exist: " ++ inputDir)
  else
    match findResult with
    | .error e => .error ("failed to find PDF files: " ++ e)
    | .ok pdfFiles =>
      if pdfFiles.length = 0 then
        .ok ⟨inputDir, outputBaseDir, [], 0, 0, [], 0, 0, 0⟩
      else
        let result := batchLoop convert pdfFiles
          ⟨inputDir, outputBaseDir, [], 0, 0, [], 0, 0, 0⟩
        .ok { result with FileCount := pdfFiles.length }

/-- Characterization of the batch loop over any starting accumulator:
every file is processed, successes and failures are tallied by outcome,
and errors and results are appended in order. -/
theorem batchLoop_spec (convert : String → Except String ConversionResult) :
    ∀ (files : List String) (acc : BatchConversionResult),
      (batchLoop convert files acc).SuccessCount
          = acc.SuccessCount + (files.filter (fun p => convOk (convert p))).length ∧
      (batchLoop convert files acc).FailureCount
          = acc.FailureCount + (files.filter (fun p => !convOk (convert p))).length ∧
      (batchLoop convert files acc).Errors
          = acc.Errors ++ files.filterMap (fun p =>
              match convert p with
              | .error e => some ⟨p, e⟩
              | .ok _ => none) ∧
      (batchLoop convert files acc).Results
          = acc.Results ++ files.filterMap (fun p => (convert p).toOption) ∧
      (batchLoop convert files acc).InputDir = acc.InputDir ∧
      (batchLoop convert files acc).OutputBaseDir = acc.OutputBaseDir := by
  intro files
  induction files with
  | nil => intro acc; simp [batchLoop]
  | cons p rest ih =>
    intro acc
    cases hconv : convert p with
    | error e =>
      obtain ⟨h1, h2, h3, h4, h5, h6⟩ := ih { acc with
        FailureCount := acc.FailureCount + 1,
        Errors := acc.Errors ++ [⟨p, e⟩] }
      have hcOk : convOk (convert p) = false := by rw [hconv]; rfl
      have hfilt1 : (p :: rest).filter (fun q => convOk (convert q))
          = rest.filter (fun q => convOk (convert q)) := by
        rw [List.filter_cons, hcOk]
        simp
      have hfilt2 : (p :: rest).filter (fun q => !convOk (convert q))
          = p :: rest.filter (fun q => !convOk (convert q)) := by
        rw [List.filter_cons, hcOk]
        simp
      have hfm1 : (p :: rest).filterMap (fun q =>
            match convert q with
            | .error er => some (⟨q, er⟩ : ConversionError)
            | .ok _ => none)
          = ⟨p, e⟩ :: rest.filterMap (fun q =>
            match convert q with
            | .error er => some (⟨q, er⟩ : ConversionError)
            | .ok _ => none) := by
        simp [List.filterMap_cons, hconv]
      have hfm2 : (p :: rest).filterMap (fun q => (convert q).toOption)
          = rest.filterMap (fun q => (convert q).toOption) := by
        simp [List.filterMap_cons, hconv, Except.toOption]
      simp only [batchLoop, hconv]
      rw [hfilt1, hfilt2, hfm1, hfm2]
      refine ⟨by rw [h1], by rw [h2]; simp only [List.length_cons]; omega,
        by rw [h3]; simp, by rw [h4], h5, h6⟩
    | ok cr =>
      obtain ⟨h1, h2, h3, h4, h5, h6⟩ := ih { acc with
        SuccessCount := acc.SuccessCount + 1,
        Results := acc.Results ++ [cr],
        TotalPageCount := acc.TotalPageCount + cr.PageCount,
        TotalImageCount := acc.TotalImageCount + cr.ImageCount }
      have hcOk : convOk (convert p) = true := by rw [hconv]; rfl
      have hfilt1 : (p :: rest).filter (fun q => convOk (convert q))
          = p :: rest.filter (fun q => convOk (convert q)) := by
        rw [List.filter_cons, hcOk]
        simp
      have hfilt2 : (p :: rest).filter (fun q => !convOk (convert q))
          = rest.filter (fun q => !convOk (convert q)) := by
        rw [List.filter_cons, hcOk]
        simp
      have hfm1 : (p :: rest).filterMap (fun q =>
            match convert q with
            | .error er => some (⟨q, er⟩ : ConversionError)
            | .ok _ => none)
          = rest.filterMap (fun q =>
            match convert q with
            | .error er => some (⟨q, er⟩ : ConversionError)
            | .ok _ => none) := by
        simp [List.filterMap_cons, hconv]
      have hfm2 : (p :: rest).filterMap (fun q => (convert q).toOption)
          = cr :: rest.filterMap (fun q => (convert q).toOption) := by
        simp [List.filterMap_cons, hconv, Except.toOption]
      simp only [batchLoop, hconv]
      rw [hfilt1, hfilt2, hfm1, hfm2]
      refine ⟨by rw [h1]; simp only [List.length_cons]; omega, by rw [h2],
        by rw [h3], by rw [h4]; simp, h5, h6⟩

end PdfConv

namespace PdfConv

/-- **C10.** For every input directory that exists and whose listing
succeeds: an empty listing returns the all-zero `BatchConversionResult`
(not an error); otherwise every document is processed regardless of where
failures occur — successes and failures are tallied per file outcome so
that `FileCount = SuccessCount + FailureCount`, with one recorded
`ConversionError` (naming the failing path) per failed document, and one
`ConversionResult` per successful one, both in iteration order. -/
theorem ConvertPDFsInDirectory_spec
    (convert : String → Except String ConversionResult) (dirExists : Bool)
    (findResult : Except String (List String)) (inputDir outputBaseDir : String)
    (hdir : dirExists = true) :
    (findResult = .ok [] →
      ConvertPDFsInDirectory convert dirExists findResult inputDir outputBaseDir =
        .ok ⟨inputDir, outputBaseDir, [], 0, 0, [], 0, 0, 0⟩) ∧
    (∀ files, findResult = .ok files →
      ∃ r, ConvertPDFsInDirectory convert dirExists findResult inputDir outputBaseDir
          = .ok r ∧
        r.FileCount = files.length ∧
        r.SuccessCount = (files.filter (fun p => convOk (convert p))).length ∧
        r.FailureCount = (files.filter (fun p => !convOk (convert p))).length ∧
        r.FileCount = r.SuccessCount + r.FailureCount ∧
        r.Errors = files.filterMap (fun p =>
          match convert p with
          | .error e => some (⟨p, e⟩ : ConversionError)
          | .ok _ => none) ∧
        r.Errors.length = r.FailureCount ∧
        r.Results = files.filterMap (fun p => (convert p).toOption) ∧
        r.InputDir = inputDir ∧ r.OutputBaseDir = outputBaseDir) := by
  subst hdir
  constructor
  · intro hfind
    unfold ConvertPDFsInDirectory
    rw [hfind]
    rfl
  · intro files hfind
    unfold ConvertPDFsInDirectory
    rw [hfind]
    cases files with
    | nil =>
      refine ⟨⟨inputDir, outputBaseDir, [], 0, 0, [], 0, 0, 0⟩, ?_⟩
      simp
    | cons p rest =>
      obtain ⟨h1, h2, h3, h4, h5, h6⟩ := batchLoop_spec convert (p :: rest)
        ⟨inputDir, outputBaseDir, [], 0, 0, [], 0, 0, 0⟩
      have herrlen : ∀ l : List String,
          (l.filterMap (fun q =>
            match convert q with
            | .error e => some (⟨q, e⟩ : ConversionError)
            | .ok _ => none)).length
          = (l.filter (fun q => !convOk (convert q))).length := by
        intro l
        induction l with
        | nil => rfl
        | cons q qs ih =>
          cases hq : convert q with
          | error e =>
            rw [List.filterMap_cons, List.filter_cons, hq]
            simp [convOk, ih]
          | ok cr =>
            rw [List.filterMap_cons, List.filter_cons, hq]
            simp [convOk, ih]
      have hsum : ∀ l : List String,
          (l.filter (fun q => convOk (convert q))).length
            + (l.filter (fun q => !convOk (convert q))).length = l.length := by
        intro l
        induction l with
        | nil => rfl
        | cons q qs ih =>
          cases hq : convOk (convert q) <;>
            simp [List.filter_cons, hq] <;> omega
      simp only [List.length_cons, Nat.succ_ne_zero, if_neg, ite_false]
      refine ⟨_, by rw [if_neg (by simp)], rfl, ?_, ?_, ?_, ?_, ?_, ?_, ?_, ?_⟩
      · simpa using h1
      · simpa using h2
      · rw [h1, h2]
        simp only [Nat.zero_add]
        have hs := hsum (p :: rest)
        simp only [List.length_cons] at hs
        omega
      · simpa using h3
      · rw [h2, h3]
        simp only [Nat.zero_add, List.nil_append]
        exact herrlen (p :: rest)
      · simpa using h4
      · simpa using h5
      · simpa using h6

/-- The converter used by the C10 witness: fails on `b.pdf` only. -/
def convertW : String → Except String ConversionResult :=
  fun p => if p = "b.pdf" then .error "failed to open PDF"
    else .ok ⟨"out", "README.md", 2, 3⟩

/-- Witness for C10: three files of which the second fails to convert:
`SuccessCount = 2`, `FailureCount = 1`, one error naming the failing path,
and the files after the failure are still processed. -/
theorem ConvertPDFsInDirectory_spec_witness :
    ((true : Bool) = true) ∧
    (∃ r, ConvertPDFsInDirectory convertW true
        (.ok ["a.pdf", "b.pdf", "c.pdf"]) "in" "outbase" = .ok r ∧
      r.FileCount = (["a.pdf", "b.pdf", "c.pdf"] : List String).length ∧
      r.SuccessCount = ((["a.pdf", "b.pdf", "c.pdf"] : List String).filter
        (fun p => convOk (convertW p))).length ∧
      r.FailureCount = ((["a.pdf", "b.pdf", "c.pdf"] : List String).filter
        (fun p => !convOk (convertW p))).length ∧
      r.FileCount = r.SuccessCount + r.FailureCount ∧
      r.Errors = (["a.pdf", "b.pdf", "c.pdf"] : List String).filterMap (fun p =>
        match convertW p with
        | .error e => some (⟨p, e⟩ : ConversionError)
        | .ok _ => none) ∧
      r.Errors.length = r.FailureCount ∧
      r.Results = (["a.pdf", "b.pdf", "c.pdf"] : List String).filterMap
        (fun p => (convertW p).toOption) ∧
      r.InputDir = "in" ∧ r.OutputBaseDir = "outbase") :=
  ⟨rfl,
    (ConvertPDFsInDirectory_spec convertW true
      (.ok ["a.pdf", "b.pdf", "c.pdf"]) "in" "outbase" rfl).2
      ["a.pdf", "b.pdf", "c.pdf"] rfl⟩

end PdfConv

/-!
## The resource walker (`extractImagesFromPage`)

Each XObject entry of a page's resource dictionary is modelled with the
outcome of every effectful step it triggers: whether reading the object or
its subtype faults at runtime (`preCheckPanics` — recovered by the per-image
`defer`/`recover`), whether it is an image XObject, and the outcomes of
`extractImageFromXObject`, `saveImage` and `DetectDiagramsInImage`
(each may succeed, return an error, or fault — a fault anywhere inside the
per-image closure is recovered and only that image's processing stops).
-/

namespace PdfConv

/-- Outcome of `saveImage` for one image. -/
inductive StepOutcome where
  | ok
  | fail
  | panics
deriving DecidableEq, Repr

/-- Outcome of `extractImageFromXObject` for one image. -/
inductive ExtractOutcome where
  | ok (img : GoImage)
  | fail
  | panics
deriving DecidableEq, Repr

/-- Outcome of `DetectDiagramsInImage` for one image. -/
inductive DetectOutcome where
  | ok (diagrams : List Uml.DetectedDiagram)
  | fail
  | panics
deriving DecidableEq, Repr

/-- One XObject resource entry together with the behavior of the
environment while processing it. -/
structure XEntry where
  name : String
  preCheckPanics : Bool
  isImage : Bool
  extract : ExtractOutcome
  save : StepOutcome
  detect : DetectOutcome
deriving DecidableEq, Repr

/-- Processing of a single entry inside the loop of
`extractImagesFromPage`: empty names are skipped; a recovered fault or a
non-image object contributes nothing; otherwise the image counter is
incremented and the filename assigned, extraction errors fall back to the
200×150 placeholder, save errors or faults skip the image, and diagram
detection (when enabled) contributes its diagrams, an empty list on error,
or skips the image if it faults.  Returns the new counter and the image
appended, if any. -/
def processEntry (detectEnabled : Bool) (pageNum : Nat) (cnt : Nat) (e : XEntry) :
    Nat × Option PDFImage :=
  if e.name = "" then (cnt, none)
  else if e.preCheckPanics then (cnt, none)
  else if !e.isImage then (cnt, none)
  else
    let cnt2 := cnt + 1
    let filename := "page_" ++ toString pageNum ++ "_image_" ++ toString cnt2 ++ ".png"
    match e.extract with
    | .panics => (cnt2, none)
    | eo =>
      let img := match eo with
        | .ok i => i
        | _ => createPlaceholderImage 200 150
      match e.save with
      | .panics => (cnt2, none)
      | .fail => (cnt2, none)
      | .ok =>
        if detectEnabled then
          match e.detect with
          | .panics => (cnt2, none)
          | .fail => (cnt2, some ⟨img, img.width, img.height, filename, []⟩)
          | .ok ds => (cnt2, some ⟨img, img.width, img.height, filename, ds⟩)
        else (cnt2, some ⟨img, img.width, img.height, filename, []⟩)

/-- The entry loop of `extractImagesFromPage`, threading the image
counter. -/
def runEntries (detectEnabled : Bool) (pageNum : Nat) :
    List XEntry → Nat → List PDFImage
  | [], _ => []
  | e :: rest, cnt =>
    let r := processEntry detectEnabled pageNum cnt e
    r.2.toList ++ runEntries detectEnabled pageNum rest r.1

/-- `extractImagesFromPage` for one page: run all entries from counter 0
(the function itself never returns an error). -/
def extractImagesFromPage (detectEnabled : Bool) (pageNum : Nat)
    (entries : List XEntry) : List PDFImage :=
  runEntries detectEnabled pageNum entries 0

/-- Whether an entry reaches the `imageCount++` increment. -/
def countsImage (e : XEntry) : Bool :=
  !(e.name == "") && !e.preCheckPanics && e.isImage

/-- Number of entries of a list that reach the counter increment. -/
def countImgs (l : List XEntry) : Nat := (l.filter countsImage).length

/-- The per-page image processing over a list of pages (the
`extractPagesContent` loop): pages are processed independently. -/
def extractPagesImages (detectEnabled : Bool) (pages : List (Nat × List XEntry)) :
    List (List PDFImage) :=
  pages.map (fun pg => extractImagesFromPage detectEnabled pg.1 pg.2)

/-- A failure of the kinds C1 quantifies over: image-data extraction
error, save failure, or a runtime fault anywhere in the per-image closure. -/
def entryFails (detectEnabled : Bool) (e : XEntry) : Prop :=
  e.extract = .fail ∨ e.extract = .panics ∨ e.save = .fail ∨ e.save = .panics ∨
  e.preCheckPanics = true ∨ (detectEnabled = true ∧ e.detect = .panics)

/-- The counter after an entry advances by one exactly when the entry is a
named, non-faulting image object. -/
theorem processEntry_fst (d : Bool) (p cnt : Nat) (e : XEntry) :
    (processEntry d p cnt e).1 = cnt + (if countsImage e then 1 else 0) := by
  unfold processEntry
  by_cases hn : e.name = ""
  · have hc : countsImage e = false := by simp [countsImage, hn]
    simp [hn, hc]
  · by_cases hpc : e.preCheckPanics
    · have hc : countsImage e = false := by simp [countsImage, hpc]
      simp [hn, hpc, hc]
    · by_cases him : e.isImage
      · have hc : countsImage e = true := by simp [countsImage, hn, hpc, him]
        rw [hc]
        cases e.extract <;> cases e.save <;> cases e.detect <;>
          by_cases hd : d <;> simp [hn, hpc, him, hd]
      · have hc : countsImage e = false := by simp [countsImage, him]
        simp [hn, hpc, him, hc]

/-- The entry loop splits over list concatenation, the second part running
from the counter the first part reaches. -/
theorem runEntries_append (d : Bool) (p : Nat) :
    ∀ (l1 l2 : List XEntry) (cnt : Nat),
      runEntries d p (l1 ++ l2) cnt =
        runEntries d p l1 cnt ++ runEntries d p l2 (cnt + countImgs l1) := by
  intro l1
  induction l1 with
  | nil => intro l2 cnt; simp [runEntries, countImgs]
  | cons e l1 ih =>
    intro l2 cnt
    simp only [List.cons_append, runEntries, List.append_assoc]
    rw [List.append_eq, ih]
    have h1 : (processEntry d p cnt e).1 = cnt + (if countsImage e then 1 else 0) :=
      processEntry_fst d p cnt e
    have h2 : countImgs (e :: l1) = (if countsImage e then 1 else 0) + countImgs l1 := by
      unfold countImgs
      rw [List.filter_cons]
      split <;> simp <;> omega
    rw [h1, h2]
    have : cnt + (if countsImage e then 1 else 0) + countImgs l1
        = cnt + ((if countsImage e then 1 else 0) + countImgs l1) := by omega
    rw [this]

end PdfConv

namespace PdfConv

set_option maxRecDepth 4000 in
/-- **C1.** Image processing is isolated per entry: for any failing entry
(extraction error, save failure, or a recovered runtime fault) between any
prefix and suffix of a page's resource entries, the page's result is the
prefix's images, then the failing entry's contribution — nothing, or a
placeholder-backed image when only extraction failed — then the suffix's
images processed exactly as they would be (from the counter the prefix and
the failing entry reach); and pages are processed independently of one
another. -/
theorem extractImagesFromPage_isolation (d : Bool) (pageNum : Nat)
    (pre post : List XEntry) (e : XEntry) (hfail : entryFails d e) :
    extractImagesFromPage d pageNum (pre ++ e :: post) =
      extractImagesFromPage d pageNum pre ++
        (processEntry d pageNum (countImgs pre) e).2.toList ++
        runEntries d pageNum post (countImgs pre + countImgs [e]) ∧
    ((processEntry d pageNum (countImgs pre) e).2 = none ∨
      ∃ fn ds, (processEntry d pageNum (countImgs pre) e).2 =
        some ⟨createPlaceholderImage 200 150, 200, 150, fn, ds⟩) ∧
    (∀ (pagesPre pagesPost : List (Nat × List XEntry)) (pg : Nat × List XEntry),
      extractPagesImages d (pagesPre ++ pg :: pagesPost) =
        extractPagesImages d pagesPre ++
          [extractImagesFromPage d pg.1 pg.2] ++ extractPagesImages d pagesPost) := by
  refine ⟨?_, ?_, ?_⟩
  · unfold extractImagesFromPage
    rw [runEntries_append d pageNum pre (e :: post) 0]
    simp only [runEntries, Nat.zero_add]
    rw [processEntry_fst]
    have hone : countImgs [e] = if countsImage e then 1 else 0 := by
      unfold countImgs
      rw [List.filter_cons]
      split <;> rfl
    rw [hone, List.append_assoc]
  · by_cases hn : e.name = ""
    · left; simp [processEntry, hn]
    · by_cases hpc : e.preCheckPanics
      · left; simp [processEntry, hn, hpc]
      · by_cases him : e.isImage
        · cases hex : e.extract with
          | panics => left; simp [processEntry, hn, hpc, him, hex]
          | fail =>
            cases hsv : e.save with
            | panics => left; simp [processEntry, hn, hpc, him, hex, hsv]
            | fail => left; simp [processEntry, hn, hpc, him, hex, hsv]
            | ok =>
              cases hd : d with
              | false =>
                right
                refine ⟨"page_" ++ toString pageNum ++ "_image_"
                  ++ toString (countImgs pre + 1) ++ ".png", [], ?_⟩
                have hwd : (createPlaceholderImage 200 150).width = 200 := rfl
                have hht : (createPlaceholderImage 200 150).height = 150 := rfl
                simp [processEntry, hn, hpc, him, hex, hsv, hd, hwd, hht]
              | true =>
                cases hdet : e.detect with
                | panics => left; simp [processEntry, hn, hpc, him, hex, hsv, hd, hdet]
                | fail =>
                  right
                  refine ⟨"page_" ++ toString pageNum ++ "_image_"
                    ++ toString (countImgs pre + 1) ++ ".png", [], ?_⟩
                  have hwd : (createPlaceholderImage 200 150).width = 200 := rfl
                  have hht : (createPlaceholderImage 200 150).height = 150 := rfl
                  simp [processEntry, hn, hpc, him, hex, hsv, hd, hdet, hwd, hht]
                | ok ds =>
                  right
                  refine ⟨"page_" ++ toString pageNum ++ "_image_"
                    ++ toString (countImgs pre + 1) ++ ".png", ds, ?_⟩
                  have hwd : (createPlaceholderImage 200 150).width = 200 := rfl
                  have hht : (createPlaceholderImage 200 150).height = 150 := rfl
                  simp [processEntry, hn, hpc, him, hex, hsv, hd, hdet, hwd, hht]
          | ok i =>
            rcases hfail with hx | hx | hx | hx | hx | hx
            · rw [hex] at hx; cases hx
            · rw [hex] at hx; cases hx
            · left
              simp [processEntry, hn, hpc, him, hex, hx]
            · left
              simp [processEntry, hn, hpc, him, hex, hx]
            · exact absurd hx hpc
            · obtain ⟨hd, hdet⟩ := hx
              left
              cases hsv : e.save with
              | panics => simp [processEntry, hn, hpc, him, hex, hsv]
              | fail => simp [processEntry, hn, hpc, him, hex, hsv]
              | ok => simp [processEntry, hn, hpc, him, hex, hsv, hd, hdet]
        · left; simp [processEntry, hn, hpc, him]
  · intro pagesPre pagesPost pg
    simp [extractPagesImages]

/-- A well-behaved image entry for the C1 witness. -/
def eOkEntry : XEntry := ⟨"Im0", false, true, .ok (createPlaceholderImage 1 1), .ok, .ok []⟩

/-- A failing image entry (extraction error) for the C1 witness. -/
def eBadEntry : XEntry := ⟨"Im1", false, true, .fail, .ok, .ok []⟩

/-- Witness for C1: a failing entry between two good ones on page 1, with
diagram detection enabled. -/
theorem extractImagesFromPage_isolation_witness :
    entryFails true eBadEntry ∧
    (extractImagesFromPage true 1 ([eOkEntry] ++ eBadEntry :: [eOkEntry]) =
      extractImagesFromPage true 1 [eOkEntry] ++
        (processEntry true 1 (countImgs [eOkEntry]) eBadEntry).2.toList ++
        runEntries true 1 [eOkEntry] (countImgs [eOkEntry] + countImgs [eBadEntry]) ∧
    ((processEntry true 1 (countImgs [eOkEntry]) eBadEntry).2 = none ∨
      ∃ fn ds, (processEntry true 1 (countImgs [eOkEntry]) eBadEntry).2 =
        some ⟨createPlaceholderImage 200 150, 200, 150, fn, ds⟩) ∧
    (∀ (pagesPre pagesPost : List (Nat × List XEntry)) (pg : Nat × List XEntry),
      extractPagesImages true (pagesPre ++ pg :: pagesPost) =
        extractPagesImages true pagesPre ++
          [extractImagesFromPage true pg.1 pg.2] ++ extractPagesImages true pagesPost)) :=
  ⟨Or.inl rfl,
    extractImagesFromPage_isolation true 1 [eOkEntry] [eOkEntry] eBadEntry (Or.inl rfl)⟩

end PdfConv
